import Mathlib

/-!
Verification development for the StravaAnalyzer analytics kernel.

Each Python function under scrutiny is shallowly embedded as a Lean
definition over lists; pandas Series become Lean lists, NaN/missing
values become `Option`, machine floats become `ℚ` (where only field
operations occur) or `ℝ` (where `exp` or fractional powers occur),
and fallible code returns `Except`.
-/

namespace StravaAnalyzer

/-! ## Shared primitives (metrics/base.py `BaseMetricCalculator`) -/

/-- Successive differences of a list, mirroring `pandas.Series.diff`
(without the leading NaN): `listDiffs [t0, t1, t2] = [t1 - t0, t2 - t1]`. -/
def listDiffs {α : Type} [LinearOrderedField α] : List α → List α
  | a :: b :: rest => (b - a) :: listDiffs (b :: rest)
  | _ => []

/-- `BaseMetricCalculator._calculate_time_deltas` on a present `time`
column: diff the time stamps, replace the leading NaN with the second
diff (or 1.0 for a single sample), clip below at 1.0, and, when
`clipGaps` is set, clip above at 2.0 (`GAP_DETECTION_THRESHOLD`). -/
def timeDeltas {α : Type} [LinearOrderedField α] (clipGaps : Bool) (t : List α) : List α :=
  let base : List α :=
    match listDiffs t with
    | [] => if t.isEmpty then [] else [1]
    | d :: ds => (d :: d :: ds).map (fun x => max x 1)
  if clipGaps then base.map (fun x => min x 2) else base

/-- `BaseMetricCalculator._time_weighted_mean`:
`Σ(value·Δt) / Σ(Δt)`, 0 for empty input or vanishing total time.
`values` and `times` are aligned columns of the same rows. -/
def timeWeightedMean {α : Type} [LinearOrderedField α]
    (clipGaps : Bool) (values times : List α) : α :=
  if values.isEmpty then 0
  else
    let ds := timeDeltas clipGaps times
    let num := (List.zipWith (fun v d => v * d) values ds).sum
    let den := ds.sum
    if 0 < den then num / den else 0

/-- `BaseMetricCalculator._get_total_duration`: the sum of the
(unclipped-above) time deltas. -/
def totalDuration {α : Type} [LinearOrderedField α] (times : List α) : α :=
  if times.isEmpty then 0 else (timeDeltas false times).sum

/-- `pandas.Series.rolling(window=w, min_periods=1).mean()`:
entry `i` is the mean of the window `l[max(0, i+1-w) .. i]`. -/
def rollingMean {α : Type} [LinearOrderedField α] (w : ℕ) (l : List α) : List α :=
  (List.range l.length).map (fun i =>
    let win := (l.take (i + 1)).drop (i + 1 - w)
    win.sum / (win.length : α))

/-- `pandas.Series.max` / `numpy.max` on a list (0 on empty input; the
sources only consult it on non-empty data). -/
def maxList {α : Type} [LinearOrder α] [Zero α] : List α → α
  | [] => 0
  | x :: xs => xs.foldl max x

/-! ## Stream splitting (data/splitter.py `StreamSplitter`) -/

/-- One sample of a processed stream: the `time` and `moving` columns the
splitter manipulates, plus an opaque payload for every other column. -/
structure SRow (α : Type) where
  time : ℚ
  moving : Bool
  data : α
  deriving DecidableEq

/-- One sample of the moving view: `time` rewritten, the original stamp
kept in `original_time`. -/
structure MovRow (α : Type) where
  time : ℚ
  originalTime : ℚ
  moving : Bool
  data : α
  deriving DecidableEq

/-- `StreamSplitter._create_moving_dataframe`: filter to `moving = true`,
store the original `time` under `original_time`, and overwrite `time`
with `numpy.arange(len)` = `0, 1, 2, …`. -/
def createMovingRows {α : Type} (rows : List (SRow α)) : List (MovRow α) :=
  let movingOnly := rows.filter (fun r => r.moving)
  movingOnly.enum.map (fun p => ⟨(p.1 : ℚ), p.2.time, p.2.moving, p.2.data⟩)

/-- `StreamSplitter._calculate_duration`: `time.iloc[-1] - time.iloc[0]`. -/
def rawDuration {α : Type} (rows : List (SRow α)) : ℚ :=
  match rows with
  | [] => 0
  | r :: rs => (rs.getLastD r).time - r.time

/-- `StreamSplitter._calculate_moving_duration`: diffs of the moving
samples' original time stamps, first entry forced to 1.0, clipped above
at 2.0, summed; `len` when fewer than two moving samples. -/
def movingDuration {α : Type} (rows : List (SRow α)) : ℚ :=
  if rows.isEmpty then 0
  else
    let mts := (rows.filter (fun r => r.moving)).map (fun r => r.time)
    if mts.isEmpty then 0
    else if mts.length < 2 then (mts.length : ℚ)
    else ((1 :: listDiffs mts).map (fun x => min x 2)).sum

/-- `StreamSplitter.split` result. -/
structure SplitResult (α : Type) where
  rawRows : List (SRow α)
  movingRows : List (MovRow α)
  rawDurationSeconds : ℚ
  movingDurationSeconds : ℚ
  deriving DecidableEq

/-- `StreamSplitter.split`: empty input yields empty views and zero
durations; otherwise the raw view is a copy and the moving view is the
filtered, re-pitched view. -/
def streamSplit {α : Type} (rows : List (SRow α)) : SplitResult α :=
  if rows.isEmpty then ⟨[], [], 0, 0⟩
  else ⟨rows, createMovingRows rows, rawDuration rows, movingDuration rows⟩

/-! ## Stream processing (data/processor.py `StreamDataProcessor`) -/

/-- A raw stream as handed to `StreamDataProcessor.process`: each column
may be absent (`none`) and each sample of a numeric column may be
NaN (`none`). -/
structure RawStream where
  time : Option (List (Option ℚ))
  moving : Option (List Bool)
  watts : Option (List (Option ℚ))
  heartrate : Option (List (Option ℚ))
  cadence : Option (List (Option ℚ))
  velocitySmooth : Option (List (Option ℚ))
  gradeSmooth : Option (List (Option ℚ))
  distance : Option (List (Option ℚ))
  altitude : Option (List (Option ℚ))
  deriving DecidableEq

/-- A processed stream: essentials are certainly present, numeric
columns have no NaNs left. -/
structure ProcStream where
  time : List ℚ
  moving : List Bool
  watts : Option (List ℚ)
  heartrate : Option (List ℚ)
  cadence : Option (List ℚ)
  velocitySmooth : Option (List ℚ)
  gradeSmooth : Option (List ℚ)
  distance : Option (List ℚ)
  altitude : Option (List ℚ)
  deriving DecidableEq

/-- `pandas.Series.ffill` with an explicit carry. -/
def ffillAux (carry : Option ℚ) : List (Option ℚ) → List (Option ℚ)
  | [] => []
  | some x :: vs => some x :: ffillAux (some x) vs
  | none :: vs => carry :: ffillAux carry vs

/-- `pandas.Series.ffill`. -/
def ffill (l : List (Option ℚ)) : List (Option ℚ) := ffillAux none l

/-- `pandas.Series.bfill`. -/
def bfill (l : List (Option ℚ)) : List (Option ℚ) := (ffillAux none l.reverse).reverse

/-- `pandas.Series.fillna(0)` on a fully numeric result. -/
def fillZero (l : List (Option ℚ)) : List ℚ := l.map (fun v => v.getD 0)

/-- The `ffill().bfill().fillna(0)` chain used for temporal, motion and
physiological columns. -/
def cleanFbz (l : List (Option ℚ)) : List ℚ := fillZero (bfill (ffill l))

/-- Helper for `_infer_moving_state`: walking the tail of the stream with
the previous time stamp in hand, force `moving = false` on every sample
whose gap from its predecessor exceeds `GAP_DETECTION_THRESHOLD = 2.0`. -/
def markGapsAux : ℚ → List ℚ → List Bool → List Bool
  | _, _, [] => []
  | _, [], m :: ms => m :: markGapsAux 0 [] ms
  | tp, t :: ts, m :: ms => (if 2 < t - tp then false else m) :: markGapsAux t ts ms

/-- `StreamDataProcessor._infer_moving_state` on a stream that already
has `time` and `moving` columns (the `moving`-missing default of the
first `if` is dead after validation): for `len(df) > 1`, samples
directly after a gap `> 2.0 s` are marked not moving (the first
sample's diff is NaN and is never marked); for `len(df) ≤ 1` the source
falls into the `elif`: a present `velocity_smooth` column overwrites
the whole `moving` column with `velocity_smooth > 0.5`, and without one
`moving` is left untouched. -/
def inferMovingState (time : List ℚ) (moving : List Bool)
    (velocity : Option (List ℚ)) : List Bool :=
  if 1 < time.length then
    match time, moving with
    | t :: ts, m :: ms => m :: markGapsAux t ts ms
    | _, m => m
  else
    match velocity with
    | some v => v.map (fun x => decide (1 / 2 < x))
    | none => moving

/-- `StreamDataProcessor.process`: `ValidationError` when an essential
column (`time` or `moving`, per `Settings.stream_essential_columns`) is
absent; otherwise coerce and fill each column and infer the moving
state from time gaps. `_process_motion_data` cleans `velocity_smooth`
before `_infer_moving_state` runs, so the fallback sees the cleaned
column. -/
def streamProcess (s : RawStream) : Except String ProcStream :=
  match s.time, s.moving with
  | some t0, some m0 =>
    let t := cleanFbz t0
    Except.ok
      { time := t
        moving := inferMovingState t m0 (s.velocitySmooth.map cleanFbz)
        watts := s.watts.map fillZero
        heartrate := s.heartrate.map cleanFbz
        cadence := s.cadence.map fillZero
        velocitySmooth := s.velocitySmooth.map cleanFbz
        gradeSmooth := s.gradeSmooth.map cleanFbz
        distance := s.distance.map cleanFbz
        altitude := s.altitude.map cleanFbz }
  | _, _ => Except.error ("Missing essential columns")

/-! ## Theorems for C4 (StreamSplitter) -/

theorem streamSplit_movingRows {α : Type} (rows : List (SRow α)) :
    (streamSplit rows).movingRows = createMovingRows rows := by
  by_cases h : rows.isEmpty
  · rw [List.isEmpty_iff] at h
    subst h
    simp [streamSplit, createMovingRows]
  · simp [streamSplit, h]

theorem createMovingRows_map_payload {α : Type} (rows : List (SRow α)) :
    (createMovingRows rows).map (fun r => (r.originalTime, r.moving, r.data))
      = (rows.filter (fun r => r.moving)).map (fun r => (r.time, r.moving, r.data)) := by
  unfold createMovingRows
  rw [List.map_map]
  have hc :
      ((fun r : MovRow α => (r.originalTime, r.moving, r.data)) ∘
        (fun p : ℕ × SRow α => MovRow.mk (p.1 : ℚ) p.2.time p.2.moving p.2.data))
      = (fun r : SRow α => (r.time, r.moving, r.data)) ∘ Prod.snd := rfl
  rw [hc, ← List.map_map, List.enum_map_snd]

theorem createMovingRows_map_time {α : Type} (rows : List (SRow α)) :
    (createMovingRows rows).map (fun r => r.time)
      = (List.range (rows.filter (fun r => r.moving)).length).map (Nat.cast : ℕ → ℚ) := by
  unfold createMovingRows
  rw [List.map_map, ← List.enum_map_fst (rows.filter (fun r => r.moving)), List.map_map]
  rfl

/-- C4: `StreamSplitter.split` restricts the moving view to the rows with
`moving = true` (keeping their payload), preserves the original
timestamps in the `original_time` column, overwrites `time` with the
contiguous sequence `0, 1, …, n-1`, and maps an empty input stream to
empty raw and moving views with both reported durations equal to 0. -/
theorem c4_stream_splitter_moving_view {α : Type} (rows : List (SRow α)) :
    ((streamSplit rows).movingRows.map (fun r => (r.originalTime, r.moving, r.data))
        = (rows.filter (fun r => r.moving)).map (fun r => (r.time, r.moving, r.data)))
  ∧ ((streamSplit rows).movingRows.map (fun r => r.time)
        = (List.range (rows.filter (fun r => r.moving)).length).map (Nat.cast : ℕ → ℚ))
  ∧ (∀ r ∈ (streamSplit rows).movingRows, r.moving = true)
  ∧ (rows = [] → streamSplit rows = ⟨[], [], 0, 0⟩) := by
  refine ⟨?_, ?_, ?_, ?_⟩
  · rw [streamSplit_movingRows]
    exact createMovingRows_map_payload rows
  · rw [streamSplit_movingRows]
    exact createMovingRows_map_time rows
  · intro r hr
    rw [streamSplit_movingRows] at hr
    unfold createMovingRows at hr
    obtain ⟨p, hp, hfp⟩ := List.mem_map.mp hr
    have hsnd : p.2 ∈ rows.filter (fun r => r.moving) := by
      have hm := List.mem_map_of_mem Prod.snd hp
      rwa [List.enum_map_snd] at hm
    have hmov : p.2.moving = true := (List.mem_filter.mp hsnd).2
    rw [← hfp]
    exact hmov
  · intro h
    subst h
    rfl

/-- Witness for C4 at a concrete input: the empty stream yields empty
views and zero durations. -/
theorem c4_stream_splitter_moving_view_witness :
    streamSplit ([] : List (SRow Unit)) = ⟨[], [], 0, 0⟩ :=
  (c4_stream_splitter_moving_view ([] : List (SRow Unit))).2.2.2 rfl

/-! ## Theorems for C7 (StreamDataProcessor validation) -/

theorem markGapsAux_getD (ts : List ℚ) :
    ∀ (ms : List Bool) (tp : ℚ) (i : ℕ), i < ts.length → i < ms.length →
      (markGapsAux tp ts ms).getD i false
        = if 2 < ts.getD i 0 - (if i = 0 then tp else ts.getD (i - 1) 0) then false
          else ms.getD i false := by
  induction ts with
  | nil => intro ms tp i hi hm; exact absurd hi (by simp)
  | cons u ts ih =>
    intro ms tp i hi hm
    match ms with
    | [] => exact absurd hm (by simp)
    | v :: ms =>
      match i with
      | 0 => simp [markGapsAux]
      | Nat.succ j =>
        have hj : j < ts.length := by simpa using hi
        have hjm : j < ms.length := by simpa using hm
        have := ih ms u j hj hjm
        simp only [markGapsAux, List.getD_cons_succ]
        rw [this]
        match j with
        | 0 => simp
        | Nat.succ k => simp

theorem inferMovingState_getD (t : List ℚ) (m : List Bool) (v : Option (List ℚ)) (i : ℕ)
    (h1 : i + 1 < t.length) (h2 : i + 1 < m.length) :
    (inferMovingState t m v).getD (i + 1) false
      = if 2 < t.getD (i + 1) 0 - t.getD i 0 then false else m.getD (i + 1) false := by
  have hlen : 1 < t.length := by omega
  match t, m with
  | a :: ts, b :: ms =>
    have hts : i < ts.length := by simpa using h1
    have hms : i < ms.length := by simpa using h2
    unfold inferMovingState
    rw [if_pos hlen]
    simp only [List.getD_cons_succ]
    rw [markGapsAux_getD ts ms a i hts hms]
    match i with
    | 0 => simp
    | Nat.succ k => simp
  | a :: ts, [] => exact absurd h2 (by simp)
  | [], _ => exact absurd h1 (by simp)

theorem inferMovingState_velocity (t : List ℚ) (m : List Bool) (v : List ℚ)
    (hlen : t.length ≤ 1) :
    inferMovingState t m (some v) = v.map (fun x => decide (1 / 2 < x)) := by
  unfold inferMovingState
  rw [if_neg (by omega)]

/-- C7 counterexample: a stream with a `time` column but no `moving`
column is rejected by `StreamDataProcessor.process` with a
`ValidationError` (`moving` is one of `Settings.stream_essential_columns`),
whereas the claim says such a stream is accepted. -/
theorem c7_counterexample :
    streamProcess
      { time := some [some 0, some 1, some 5], moving := none, watts := none,
        heartrate := none, cadence := none, velocitySmooth := none,
        gradeSmooth := none, distance := none, altitude := none }
      = Except.error ("Missing essential columns") := rfl

theorem streamProcess_some (s : RawStream) (t0 : List (Option ℚ)) (m0 : List Bool)
    (ht : s.time = some t0) (hm : s.moving = some m0) :
    streamProcess s = Except.ok
      { time := cleanFbz t0,
        moving := inferMovingState (cleanFbz t0) m0 (s.velocitySmooth.map cleanFbz),
        watts := s.watts.map fillZero, heartrate := s.heartrate.map cleanFbz,
        cadence := s.cadence.map fillZero,
        velocitySmooth := s.velocitySmooth.map cleanFbz,
        gradeSmooth := s.gradeSmooth.map cleanFbz,
        distance := s.distance.map cleanFbz,
        altitude := s.altitude.map cleanFbz } := by
  simp only [streamProcess, ht, hm]

/-- C7 (amended): `StreamDataProcessor.process` raises `ValidationError`
exactly when the `time` column or the `moving` column is absent — in
particular a stream with `time` but without `moving` is rejected, not
accepted; when both are present the stream is processed: with more than
one sample, `moving` is set to `false` on each sample whose inter-sample
time gap exceeds 2.0 s, and with at most one sample and a
`velocity_smooth` column present, `moving` is overwritten by
`velocity_smooth > 0.5` on the cleaned velocity column. -/
theorem c7_process_validation (s : RawStream) :
    ((∃ p, streamProcess s = Except.ok p) ↔ (s.time.isSome ∧ s.moving.isSome))
  ∧ (∀ t0 m0, s.time = some t0 → s.moving = some m0 →
      ∃ p, streamProcess s = Except.ok p
        ∧ p.moving = inferMovingState (cleanFbz t0) m0 (s.velocitySmooth.map cleanFbz)
        ∧ (∀ i : ℕ, i + 1 < (cleanFbz t0).length → i + 1 < m0.length →
            p.moving.getD (i + 1) false
              = if 2 < (cleanFbz t0).getD (i + 1) 0 - (cleanFbz t0).getD i 0 then false
                else m0.getD (i + 1) false)
        ∧ (∀ v0, (cleanFbz t0).length ≤ 1 → s.velocitySmooth = some v0 →
            p.moving = (cleanFbz v0).map (fun x => decide (1 / 2 < x)))) := by
  constructor
  · constructor
    · rintro ⟨p, hp⟩
      rcases hts : s.time with _ | t0 <;> rcases hms : s.moving with _ | m0 <;>
        simp only [streamProcess, hts, hms] at hp <;> simp_all
    · rintro ⟨h1, h2⟩
      obtain ⟨t0, ht⟩ := Option.isSome_iff_exists.mp h1
      obtain ⟨m0, hm⟩ := Option.isSome_iff_exists.mp h2
      exact ⟨_, streamProcess_some s t0 m0 ht hm⟩
  · intro t0 m0 ht hm
    refine ⟨_, streamProcess_some s t0 m0 ht hm, rfl, ?_, ?_⟩
    · intro i hi1 hi2
      exact inferMovingState_getD (cleanFbz t0) m0 (s.velocitySmooth.map cleanFbz) i hi1 hi2
    · intro v0 hlen hv
      show inferMovingState (cleanFbz t0) m0 (s.velocitySmooth.map cleanFbz)
          = (cleanFbz v0).map (fun x => decide (1 / 2 < x))
      rw [hv]
      exact inferMovingState_velocity (cleanFbz t0) m0 (cleanFbz v0) hlen

/-- The surviving velocity fallback at a concrete input: a
single-sample stream with `velocity_smooth = 0` has its existing
`moving = true` overwritten to `false` (`0 > 0.5` fails), mirroring the
`elif` branch of `_infer_moving_state` for `len(df) ≤ 1`. -/
theorem streamProcess_velocity_fallback_example :
    ∃ p, streamProcess
        { time := some [some 0], moving := some [true], watts := none,
          heartrate := none, cadence := none, velocitySmooth := some [some 0],
          gradeSmooth := none, distance := none, altitude := none }
        = Except.ok p
      ∧ p.moving = [false] := by
  refine ⟨_, streamProcess_some _ [some 0] [true] rfl rfl, ?_⟩
  show inferMovingState [0] [true] (some [0]) = [false]
  rw [inferMovingState_velocity [0] [true] [0] (by simp)]
  simp only [List.map_cons, List.map_nil, List.cons.injEq, and_true]
  exact decide_eq_false (by norm_num)

/-- Witness for C7 (amended) at a concrete input: a stream with `time`
and `moving` present is accepted, and the 9-second gap before the third
sample forces `moving = false` there. -/
theorem c7_process_validation_witness :
    ∃ p, streamProcess
        { time := some [some 0, some 1, some 10], moving := some [true, true, true],
          watts := none, heartrate := none, cadence := none, velocitySmooth := none,
          gradeSmooth := none, distance := none, altitude := none }
        = Except.ok p
      ∧ p.moving
          = inferMovingState (cleanFbz [some 0, some 1, some 10]) [true, true, true]
              ((none : Option (List (Option ℚ))).map cleanFbz)
      ∧ (∀ i : ℕ, i + 1 < (cleanFbz [some 0, some 1, some 10]).length → i + 1 < 3 →
          p.moving.getD (i + 1) false
            = if 2 < (cleanFbz [some 0, some 1, some 10]).getD (i + 1) 0
                      - (cleanFbz [some 0, some 1, some 10]).getD i 0 then false
              else ([true, true, true] : List Bool).getD (i + 1) false)
      ∧ (∀ v0, (cleanFbz [some 0, some 1, some 10]).length ≤ 1 →
          (none : Option (List (Option ℚ))) = some v0 →
          p.moving = (cleanFbz v0).map (fun x => decide (1 / 2 < x))) :=
  (c7_process_validation
    { time := some [some 0, some 1, some 10], moving := some [true, true, true],
      watts := none, heartrate := none, cadence := none, velocitySmooth := none,
      gradeSmooth := none, distance := none, altitude := none }).2
    [some 0, some 1, some 10] [true, true, true] rfl rfl

/-! ## Training intensity distribution (metrics/tid.py `TIDCalculator`) -/

/-- The five values emitted by `_calculate_power_tid` / `_calculate_hr_tid`. -/
structure TidMetrics where
  z1Pct : ℚ
  z2Pct : ℚ
  z3Pct : ℚ
  polarizationIndex : ℚ
  tdr : ℚ
  deriving DecidableEq

/-- Shared 3-band core of `_calculate_power_tid` and `_calculate_hr_tid`:
time deltas over the stream's `time` column weight each sample into
`value < t1`, `t1 ≤ value < t2` or `t2 ≤ value`; `none` where the source
returns the empty dict (`total_time == 0`). -/
def tidThreeZone (t1 t2 : ℚ) (times values : List ℚ) : Option TidMetrics :=
  let ds := timeDeltas false times
  let total := ds.sum
  if total = 0 then none
  else
    let pairs := List.zip values ds
    let zone1Time := ((pairs.filter (fun p => decide (p.1 < t1))).map Prod.snd).sum
    let zone2Time :=
      ((pairs.filter (fun p => decide (t1 ≤ p.1) && decide (p.1 < t2))).map Prod.snd).sum
    let zone3Time := ((pairs.filter (fun p => decide (t2 ≤ p.1))).map Prod.snd).sum
    let z1 := zone1Time / total * 100
    let z2 := zone2Time / total * 100
    let z3 := zone3Time / total * 100
    some ⟨z1, z2, z3, if 0 < z2 then (z1 + z3) / z2 else 0, if 0 < z3 then z1 / z3 else 0⟩

/-- `TIDCalculator._calculate_power_tid`: bands at 76 % and 90 % of FTP. -/
def calculatePowerTid (ftp : ℚ) (times watts : List ℚ) : Option TidMetrics :=
  if watts.isEmpty then none
  else tidThreeZone (76 / 100 * ftp) (90 / 100 * ftp) times watts

/-- `TIDCalculator._calculate_hr_tid`: bands at `ZONE_1_MAX = 0.82` and
`ZONE_3_MAX = 0.94` of FTHR. -/
def calculateHrTid (fthr : ℚ) (times hr : List ℚ) : Option TidMetrics :=
  if hr.isEmpty then none
  else tidThreeZone (82 / 100 * fthr) (94 / 100 * fthr) times hr

theorem listDiffs_length {α : Type} [LinearOrderedField α] :
    ∀ t : List α, (listDiffs t).length = t.length - 1
  | [] => rfl
  | [_] => rfl
  | a :: b :: rest => by
    simp only [listDiffs, List.length_cons]
    rw [listDiffs_length (b :: rest)]
    simp

theorem timeDeltas_one_le {α : Type} [LinearOrderedField α] (t : List α) :
    ∀ x ∈ timeDeltas false t, 1 ≤ x := by
  intro x hx
  unfold timeDeltas at hx
  simp only [if_neg (by simp : ¬ false = true)] at hx
  rcases hd : listDiffs t with _ | ⟨d, ds⟩
  · rw [hd] at hx
    by_cases he : t.isEmpty
    · simp [he] at hx
    · simp [he] at hx
      simp [hx]
  · rw [hd] at hx
    simp only [List.mem_map] at hx
    obtain ⟨y, _, hxy⟩ := hx
    rw [← hxy]
    exact le_max_right y 1

theorem timeDeltas_length_eq {α : Type} [LinearOrderedField α] (t : List α) :
    (timeDeltas false t).length = t.length := by
  unfold timeDeltas
  simp only [if_neg (by simp : ¬ false = true)]
  rcases hd : listDiffs t with _ | ⟨d, ds⟩
  · have := listDiffs_length t
    rw [hd] at this
    rcases t with _ | ⟨a, rest⟩
    · simp
    · rcases rest with _ | ⟨b, rest⟩
      · simp
      · simp [listDiffs] at hd
  · have hl := listDiffs_length t
    rw [hd] at hl
    have h2 : 2 ≤ t.length := by
      rcases t with _ | ⟨a, rest⟩
      · simp [listDiffs] at hd
      · rcases rest with _ | ⟨b, r⟩
        · simp [listDiffs] at hd
        · simp only [List.length_cons]
          omega
    simp only [List.length_cons] at hl
    simp only [List.length_map, List.length_cons]
    omega

theorem timeDeltas_sum_pos {α : Type} [LinearOrderedField α] (t : List α) (h : t ≠ []) :
    0 < (timeDeltas false t).sum := by
  have hlen : 0 < (timeDeltas false t).length := by
    rw [timeDeltas_length_eq]
    exact List.length_pos.mpr h
  rcases hd : timeDeltas false t with _ | ⟨d, ds⟩
  · rw [hd] at hlen; simp at hlen
  · have hone : ∀ x ∈ timeDeltas false t, (1 : α) ≤ x := timeDeltas_one_le t
    rw [hd] at hone
    have hd1 : (1 : α) ≤ d := hone d (by simp)
    have hds : 0 ≤ ds.sum := by
      apply List.sum_nonneg
      intro x hx
      have := hone x (by simp [hx])
      linarith
    simp only [List.sum_cons]
    linarith

theorem filter_three_zone_sum (t1 t2 : ℚ) (h12 : t1 ≤ t2) (pairs : List (ℚ × ℚ)) :
    ((pairs.filter (fun p => decide (p.1 < t1))).map Prod.snd).sum
      + ((pairs.filter (fun p => decide (t1 ≤ p.1) && decide (p.1 < t2))).map Prod.snd).sum
      + ((pairs.filter (fun p => decide (t2 ≤ p.1))).map Prod.snd).sum
    = (pairs.map Prod.snd).sum := by
  induction pairs with
  | nil => simp
  | cons p ps ih =>
    rcases lt_or_le p.1 t1 with h1 | h1
    · have e1 : decide (p.1 < t1) = true := decide_eq_true h1
      have e2 : (decide (t1 ≤ p.1) && decide (p.1 < t2)) = false := by
        have hle : decide (t1 ≤ p.1) = false := decide_eq_false (not_le.mpr h1)
        simp [hle]
      have e3 : decide (t2 ≤ p.1) = false :=
        decide_eq_false (not_le.mpr (lt_of_lt_of_le h1 h12))
      simp only [List.filter_cons, e1, e2, e3, if_true, if_false, List.map_cons,
        List.sum_cons, Bool.false_eq_true]
      linarith
    · rcases lt_or_le p.1 t2 with h2 | h2
      · have e1 : decide (p.1 < t1) = false := decide_eq_false (not_lt.mpr h1)
        have e2 : (decide (t1 ≤ p.1) && decide (p.1 < t2)) = true := by
          simp [decide_eq_true h1, decide_eq_true h2]
        have e3 : decide (t2 ≤ p.1) = false := decide_eq_false (not_le.mpr h2)
        simp only [List.filter_cons, e1, e2, e3, if_true, if_false, List.map_cons,
          List.sum_cons, Bool.false_eq_true]
        linarith
      · have e1 : decide (p.1 < t1) = false :=
          decide_eq_false (not_lt.mpr (le_trans h12 h2))
        have e2 : (decide (t1 ≤ p.1) && decide (p.1 < t2)) = false := by
          have hlt : decide (p.1 < t2) = false := decide_eq_false (not_lt.mpr h2)
          simp [hlt]
        have e3 : decide (t2 ≤ p.1) = true := decide_eq_true h2
        simp only [List.filter_cons, e1, e2, e3, if_true, if_false, List.map_cons,
          List.sum_cons, Bool.false_eq_true]
        linarith

theorem tidThreeZone_sum (t1 t2 : ℚ) (h12 : t1 ≤ t2) (times values : List ℚ)
    (hne : times ≠ []) (hlen : values.length = times.length) :
    ∃ m, tidThreeZone t1 t2 times values = some m
      ∧ m.z1Pct + m.z2Pct + m.z3Pct = 100 := by
  have hpos : 0 < (timeDeltas false times).sum := timeDeltas_sum_pos times hne
  have htot : (timeDeltas false times).sum ≠ 0 := ne_of_gt hpos
  simp only [tidThreeZone]
  rw [if_neg htot]
  refine ⟨_, rfl, ?_⟩
  have hzlen : values.length = (timeDeltas false times).length := by
    rw [timeDeltas_length_eq]; exact hlen
  have hsnd : (List.zip values (timeDeltas false times)).map Prod.snd
      = timeDeltas false times := by
    apply List.map_snd_zip
    omega
  have hsum := filter_three_zone_sum t1 t2 h12 (List.zip values (timeDeltas false times))
  rw [hsnd] at hsum
  field_simp
  linarith

/-- C9: for every non-empty stream with a `watts` column and `FTP > 0`
the three power-TID percentages sum to 100 (within 1e-6), and for every
non-empty stream with a `heartrate` column and `FTHR > 0` the three
HR-TID percentages sum to 100 (within 1e-6): the band masks
(power: `< 76 %`, `[76 %, 90 %)`, `≥ 90 %` of FTP; HR: `< 82 %`,
`[82 %, 94 %)`, `≥ 94 %` of FTHR) partition the samples and are all
weighted by the same time-delta series. -/
theorem c9_tid_percentages_sum (ftp fthr : ℚ) (timesP watts timesH hr : List ℚ)
    (hWlen : watts.length = timesP.length) (hWne : watts ≠ []) (hftp : 0 < ftp)
    (hHlen : hr.length = timesH.length) (hHne : hr ≠ []) (hfthr : 0 < fthr) :
    (∃ m, calculatePowerTid ftp timesP watts = some m
        ∧ |m.z1Pct + m.z2Pct + m.z3Pct - 100| ≤ 1 / 1000000)
  ∧ (∃ m, calculateHrTid fthr timesH hr = some m
        ∧ |m.z1Pct + m.z2Pct + m.z3Pct - 100| ≤ 1 / 1000000) := by
  constructor
  · have hTne : timesP ≠ [] := by
      intro h
      rw [h] at hWlen
      exact hWne (List.length_eq_zero.mp (by simpa using hWlen))
    have h12 : (76 / 100 * ftp : ℚ) ≤ 90 / 100 * ftp := by nlinarith
    obtain ⟨m, hm, hsum⟩ := tidThreeZone_sum _ _ h12 timesP watts hTne hWlen
    refine ⟨m, ?_, ?_⟩
    · unfold calculatePowerTid
      rw [if_neg (by simpa using hWne)]
      exact hm
    · rw [hsum]; norm_num
  · have hTne : timesH ≠ [] := by
      intro h
      rw [h] at hHlen
      exact hHne (List.length_eq_zero.mp (by simpa using hHlen))
    have h12 : (82 / 100 * fthr : ℚ) ≤ 94 / 100 * fthr := by nlinarith
    obtain ⟨m, hm, hsum⟩ := tidThreeZone_sum _ _ h12 timesH hr hTne hHlen
    refine ⟨m, ?_, ?_⟩
    · unfold calculateHrTid
      rw [if_neg (by simpa using hHne)]
      exact hm
    · rw [hsum]; norm_num

/-- Witness for C9 at a concrete input: a 3-sample stream with FTP = 200
and FTHR = 160. -/
theorem c9_tid_percentages_sum_witness :
    (∃ m, calculatePowerTid 200 [0, 1, 2] [100, 160, 195] = some m
        ∧ |m.z1Pct + m.z2Pct + m.z3Pct - 100| ≤ 1 / 1000000)
  ∧ (∃ m, calculateHrTid 160 [0, 1, 2] [120, 140, 155] = some m
        ∧ |m.z1Pct + m.z2Pct + m.z3Pct - 100| ≤ 1 / 1000000) :=
  c9_tid_percentages_sum 200 160 [0, 1, 2] [100, 160, 195] [0, 1, 2] [120, 140, 155]
    (by decide) (by decide) (by norm_num) (by decide) (by decide) (by norm_num)

/-! ## W' balance (metrics/advanced_power.py `AdvancedPowerCalculator`) -/

/-- `numpy.min` on a list (0 on empty input; the source would raise
there and never consults this case). -/
def minList {α : Type} [LinearOrder α] [Zero α] : List α → α
  | [] => 0
  | x :: xs => xs.foldl min x

/-- One step of the second-by-second W'-balance loop of
`_calculate_w_prime_balance`: depletion by `P - CP` above CP, Skiba-type
exponential recovery below, then `numpy.clip(·, 0, w_prime)`. -/
noncomputable def wBalStep (cp wPrime prev p : ℝ) : ℝ :=
  let next :=
    if cp < p then prev - (p - cp)
    else
      let tau := 546 * Real.exp (-(1 / 100) * (cp - p)) + 316
      prev + (wPrime - prev) * (1 - Real.exp (-1 / tau))
  min (max next 0) wPrime

/-- The tail of the `w_balance` array, one entry per sample of
`power[1:]`, each step feeding from the previous balance. -/
noncomputable def wBalAux (cp wPrime : ℝ) : ℝ → List ℝ → List ℝ
  | _, [] => []
  | prev, p :: ps =>
    let x := wBalStep cp wPrime prev p
    x :: wBalAux cp wPrime x ps

/-- The full `w_balance` array of `_calculate_w_prime_balance`:
`w_balance[0] = w_prime` (unclipped), then the clipped update per
remaining sample. Empty power data would raise in the source (caught by
the calculator wrapper); modelled as the empty series. -/
noncomputable def wBalSeries (cp wPrime : ℝ) : List ℝ → List ℝ
  | [] => []
  | _ :: ps => wPrime :: wBalAux cp wPrime wPrime ps

/-- The match-burn loop over `w_pct_balance[1:]`: count entries dropping
below 50 % of W', with 10 % hysteresis before re-arming. -/
noncomputable def matchBurnAux (wPrime : ℝ) : Bool → List ℝ → ℕ
  | _, [] => 0
  | inMatch, x :: xs =>
    if x / wPrime < 1 / 2 ∧ inMatch = false then 1 + matchBurnAux wPrime true xs
    else if 1 / 2 + 1 / 10 < x / wPrime then matchBurnAux wPrime false xs
    else matchBurnAux wPrime inMatch xs

/-- The two metrics emitted by `_calculate_w_prime_balance`. -/
structure WPrimeMetrics where
  wPrimeBalanceMin : ℝ
  matchBurnCount : ℝ

/-- `AdvancedPowerCalculator._calculate_w_prime_balance`: the default
zero metrics when `cp == 0 or w_prime == 0` (feature disabled), else the
minimum of the balance series and the hysteresis match-burn count. -/
noncomputable def wPrimeBalanceMetrics (cp wPrime : ℝ) (watts : List ℝ) : WPrimeMetrics :=
  if cp = 0 ∨ wPrime = 0 then ⟨0, 0⟩
  else
    let series := wBalSeries cp wPrime watts
    ⟨minList series, (matchBurnAux wPrime false (series.drop 1) : ℝ)⟩

/-! ## Theorems for C10 (W'-balance invariant) -/

theorem wBalStep_mem (cp wPrime prev p : ℝ) (hwp : 0 ≤ wPrime) :
    0 ≤ wBalStep cp wPrime prev p ∧ wBalStep cp wPrime prev p ≤ wPrime := by
  unfold wBalStep
  constructor
  · exact le_min (le_max_right _ 0) hwp
  · exact min_le_right _ _

theorem wBalAux_mem (cp wPrime : ℝ) (hwp : 0 ≤ wPrime) :
    ∀ (ps : List ℝ) (prev : ℝ), ∀ x ∈ wBalAux cp wPrime prev ps, 0 ≤ x ∧ x ≤ wPrime := by
  intro ps
  induction ps with
  | nil => intro prev x hx; exact absurd hx (by simp [wBalAux])
  | cons p ps ih =>
    intro prev x hx
    simp only [wBalAux, List.mem_cons] at hx
    rcases hx with hx | hx
    · rw [hx]
      exact wBalStep_mem cp wPrime prev p hwp
    · exact ih _ x hx

theorem wBalSeries_mem (cp wPrime : ℝ) (watts : List ℝ) (hwp : 0 ≤ wPrime) :
    ∀ x ∈ wBalSeries cp wPrime watts, 0 ≤ x ∧ x ≤ wPrime := by
  intro x hx
  rcases watts with _ | ⟨p, ps⟩
  · exact absurd hx (by simp [wBalSeries])
  · simp only [wBalSeries, List.mem_cons] at hx
    rcases hx with hx | hx
    · rw [hx]; exact ⟨hwp, le_rfl⟩
    · exact wBalAux_mem cp wPrime hwp ps wPrime x hx

theorem foldl_min_mem {α : Type} [LinearOrder α] (lo hi : α) :
    ∀ (xs : List α) (a : α), lo ≤ a → a ≤ hi → (∀ x ∈ xs, lo ≤ x ∧ x ≤ hi) →
      lo ≤ xs.foldl min a ∧ xs.foldl min a ≤ hi := by
  intro xs
  induction xs with
  | nil => intro a h1 h2 _; exact ⟨h1, h2⟩
  | cons x xs ih =>
    intro a h1 h2 hall
    have hx := hall x (by simp)
    simp only [List.foldl_cons]
    exact ih (min a x) (le_min h1 hx.1) (le_trans (min_le_left a x) h2)
      (fun y hy => hall y (by simp [hy]))

/-- C10: for every stream with a `watts` column, when the configured
`cp > 0` and `w_prime > 0`, the W'-balance series computed by
`_calculate_w_prime_balance` starts at `w_prime`, every entry lies in
the closed interval `[0, w_prime]` (each per-second update is clipped
into that range), and consequently the emitted `w_prime_balance_min`
lies in `[0, w_prime]`. -/
theorem c10_w_prime_balance_invariant (cp wPrime : ℝ) (watts : List ℝ)
    (hcp : 0 < cp) (hwp : 0 < wPrime) (hne : watts ≠ []) :
    (wBalSeries cp wPrime watts).head? = some wPrime
  ∧ (∀ x ∈ wBalSeries cp wPrime watts, 0 ≤ x ∧ x ≤ wPrime)
  ∧ 0 ≤ (wPrimeBalanceMetrics cp wPrime watts).wPrimeBalanceMin
  ∧ (wPrimeBalanceMetrics cp wPrime watts).wPrimeBalanceMin ≤ wPrime := by
  have hne2 : ∃ p ps, watts = p :: ps := by
    rcases watts with _ | ⟨p, ps⟩
    · exact absurd rfl hne
    · exact ⟨p, ps, rfl⟩
  obtain ⟨p, ps, hw⟩ := hne2
  have hmem := wBalSeries_mem cp wPrime watts (le_of_lt hwp)
  have hcond : ¬ (cp = 0 ∨ wPrime = 0) := by
    rintro (h | h)
    · exact absurd h (ne_of_gt hcp)
    · exact absurd h (ne_of_gt hwp)
  have hmetrics : (wPrimeBalanceMetrics cp wPrime watts).wPrimeBalanceMin
      = minList (wBalSeries cp wPrime watts) := by
    unfold wPrimeBalanceMetrics
    rw [if_neg hcond]
  refine ⟨?_, hmem, ?_, ?_⟩
  · rw [hw]; rfl
  · rw [hmetrics, hw]
    simp only [wBalSeries, minList]
    have := foldl_min_mem 0 wPrime (wBalAux cp wPrime wPrime ps) wPrime (le_of_lt hwp) le_rfl
      (fun x hx => wBalAux_mem cp wPrime (le_of_lt hwp) ps wPrime x hx)
    exact this.1
  · rw [hmetrics, hw]
    simp only [wBalSeries, minList]
    have := foldl_min_mem 0 wPrime (wBalAux cp wPrime wPrime ps) wPrime (le_of_lt hwp) le_rfl
      (fun x hx => wBalAux_mem cp wPrime (le_of_lt hwp) ps wPrime x hx)
    exact this.2

/-- Witness for C10 at a concrete input: cp = 250 W, W' = 20 kJ, a
three-sample power stream. -/
theorem c10_w_prime_balance_invariant_witness :
    (wBalSeries 250 20000 [300, 200, 400]).head? = some 20000
  ∧ (∀ x ∈ wBalSeries 250 20000 [300, 200, 400], 0 ≤ x ∧ x ≤ 20000)
  ∧ 0 ≤ (wPrimeBalanceMetrics 250 20000 [300, 200, 400]).wPrimeBalanceMin
  ∧ (wPrimeBalanceMetrics 250 20000 [300, 200, 400]).wPrimeBalanceMin ≤ 20000 :=
  c10_w_prime_balance_invariant 250 20000 [300, 200, 400]
    (by norm_num) (by norm_num) (by simp)

/-! ## CP/W' fitting (metrics/power_curve.py `estimate_cp_wprime`) -/

/-- First index at which a list attains its maximum (`numpy.argmax`);
0 on empty input. -/
def firstMaxIdxAux {α : Type} [LinearOrder α] (best : ℕ) (bestVal : α) (cur : ℕ) :
    List α → ℕ
  | [] => best
  | x :: xs =>
    if bestVal < x then firstMaxIdxAux cur x (cur + 1) xs
    else firstMaxIdxAux best bestVal (cur + 1) xs

/-- `numpy.argmax` on a list. -/
def firstMaxIdx {α : Type} [LinearOrder α] : List α → ℕ
  | [] => 0
  | x :: xs => firstMaxIdxAux 0 x 1 xs

/-- `hyperbolic_model`: `P(t) = CP + W'/t`, with `t = 0` replaced by
`1e-6` first, as in the source. -/
def hyperbolicModel (t cp wPrime : ℚ) : ℚ :=
  let t2 := if t = 0 then 1 / 1000000 else t
  cp + wPrime / t2

/-- Result triple of `estimate_cp_wprime`; `none` models the NaN the
source emits. -/
structure CpFit where
  cp : Option ℚ
  wPrime : Option ℚ
  rSquared : Option ℚ
  deriving DecidableEq

/-- The data-driven initial guess of `estimate_cp_wprime` when no usable
FTP hint is given: CP from 95 % of the power at the longest duration, W'
from the power spread times the shortest duration, boxed into
`[5000, 25000]`. -/
def cpDataGuess (durations powers : List ℚ) : ℚ × ℚ :=
  let idx := firstMaxIdx durations
  let initialCp := powers.getD idx 0 * (95 / 100)
  let w0 := (maxList powers - minList powers) * minList durations
  (initialCp, max 5000 (min w0 25000))

/-- The full initial guess of `estimate_cp_wprime`: `(0.88·FTP, 15 kJ)`
when an FTP hint `> 0` is present, else the data-driven guess; both are
then boxed into `CP ∈ [100, 400]`, `W' ∈ [5000, 30000]`. -/
def cpInitialGuess (durations powers : List ℚ) (ftp : Option ℚ) : ℚ × ℚ :=
  let g :=
    match ftp with
    | some f =>
      if 0 < f then (f * (88 / 100), (15000 : ℚ)) else cpDataGuess durations powers
    | none => cpDataGuess durations powers
  (max 100 (min g.1 400), max 5000 (min g.2 30000))

/-- `estimate_cp_wprime`. The external `scipy.optimize.curve_fit` call
is abstracted as a `solver` argument that receives exactly the filtered
`(duration, power)` points and the initial guess and may fail (`none`
models the `RuntimeError` / `ValueError` the source catches). Fewer than
2 raw points, fewer than 3 points of duration `≥ 120 s`, and solver
failure all yield the NaN triple (`none` fields). -/
def estimateCpWprime (solver : List (ℚ × ℚ) → ℚ × ℚ → Option (ℚ × ℚ))
    (mmpData : List (ℚ × ℚ)) (ftp : Option ℚ) : CpFit :=
  if mmpData.length < 2 then ⟨none, none, none⟩
  else
    let filtered := mmpData.filter (fun p => decide (120 ≤ p.1))
    if filtered.length < 3 then ⟨none, none, none⟩
    else
      let durations := filtered.map Prod.fst
      let powers := filtered.map Prod.snd
      match solver filtered (cpInitialGuess durations powers ftp) with
      | none => ⟨none, none, none⟩
      | some (cpv, wv) =>
        let predicted := durations.map (fun t => hyperbolicModel t cpv wv)
        let ssRes := (List.zipWith (fun p q => (p - q) ^ 2) powers predicted).sum
        let meanP := powers.sum / (powers.length : ℚ)
        let ssTot := (powers.map (fun p => (p - meanP) ^ 2)).sum
        ⟨some cpv, some wv, if 0 < ssTot then some (1 - ssRes / ssTot) else none⟩

/-! ## Theorems for C8 (CP-fit guard behaviour) -/

/-- C8: `estimate_cp_wprime` discards points with duration `< 120 s`
(the result only depends on the filtered data), returns the NaN triple
whenever fewer than 3 points remain after filtering — in particular for
an input of exactly two MMP points — and never raises on a failed curve
fit: a failing solver also yields the NaN triple. -/
theorem c8_estimate_cp_wprime_guards
    (solver : List (ℚ × ℚ) → ℚ × ℚ → Option (ℚ × ℚ))
    (mmpData : List (ℚ × ℚ)) (ftp : Option ℚ) :
    (mmpData.length = 2 → estimateCpWprime solver mmpData ftp = ⟨none, none, none⟩)
  ∧ ((mmpData.filter (fun p => decide (120 ≤ p.1))).length < 3 →
      estimateCpWprime solver mmpData ftp = ⟨none, none, none⟩)
  ∧ (solver (mmpData.filter (fun p => decide (120 ≤ p.1)))
        (cpInitialGuess ((mmpData.filter (fun p => decide (120 ≤ p.1))).map Prod.fst)
          ((mmpData.filter (fun p => decide (120 ≤ p.1))).map Prod.snd) ftp) = none →
      estimateCpWprime solver mmpData ftp = ⟨none, none, none⟩)
  ∧ (estimateCpWprime solver mmpData ftp
      = estimateCpWprime solver (mmpData.filter (fun p => decide (120 ≤ p.1))) ftp)
  ∧ (∀ p ∈ mmpData.filter (fun p => decide (120 ≤ p.1)), 120 ≤ p.1) := by
  have hfle : (mmpData.filter (fun p => decide (120 ≤ p.1))).length ≤ mmpData.length :=
    List.length_filter_le _ _
  have hidem : (mmpData.filter (fun p => decide (120 ≤ p.1))).filter
      (fun p => decide (120 ≤ p.1)) = mmpData.filter (fun p => decide (120 ≤ p.1)) := by
    rw [List.filter_filter]
    simp
  refine ⟨?_, ?_, ?_, ?_, ?_⟩
  · intro h2
    unfold estimateCpWprime
    rw [if_neg (by omega)]
    rw [if_pos (by omega)]
  · intro h3
    unfold estimateCpWprime
    by_cases hlen : mmpData.length < 2
    · rw [if_pos hlen]
    · rw [if_neg hlen, if_pos h3]
  · intro hsolve
    unfold estimateCpWprime
    by_cases hlen : mmpData.length < 2
    · rw [if_pos hlen]
    · rw [if_neg hlen]
      by_cases h3 : (mmpData.filter (fun p => decide (120 ≤ p.1))).length < 3
      · rw [if_pos h3]
      · rw [if_neg h3]
        simp only [hsolve]
  · by_cases hlen : mmpData.length < 2
    · have hflen : (mmpData.filter (fun p => decide (120 ≤ p.1))).length < 2 := by omega
      unfold estimateCpWprime
      rw [if_pos hlen, if_pos hflen]
    · by_cases h3 : (mmpData.filter (fun p => decide (120 ≤ p.1))).length < 3
      · by_cases hflen : (mmpData.filter (fun p => decide (120 ≤ p.1))).length < 2
        · unfold estimateCpWprime
          rw [if_neg hlen, if_pos h3, if_pos hflen]
        · unfold estimateCpWprime
          rw [if_neg hlen, if_pos h3, if_neg hflen, hidem, if_pos (by omega)]
      · unfold estimateCpWprime
        rw [if_neg hlen, if_neg h3, if_neg (by omega), hidem, if_neg h3]
  · intro p hp
    have := List.of_mem_filter hp
    simpa using this

/-- Witness for C8 at concrete inputs: two points give NaN; two points
above 120 s among three give NaN; a failing solver gives NaN; the result
equals the result on the pre-filtered data. -/
theorem c8_estimate_cp_wprime_guards_witness :
    (estimateCpWprime (fun _ _ => none) [(60, 500), (300, 300)] none = ⟨none, none, none⟩)
  ∧ (estimateCpWprime (fun _ _ => some (250, 15000)) [(60, 500), (130, 400), (140, 380)]
        (some 285) = ⟨none, none, none⟩)
  ∧ (estimateCpWprime (fun _ _ => none) [(130, 400), (300, 320), (600, 300)]
        (some 285) = ⟨none, none, none⟩)
  ∧ (estimateCpWprime (fun _ _ => some (250, 15000)) [(60, 700), (130, 400), (300, 320), (600, 290)]
        (some 285)
      = estimateCpWprime (fun _ _ => some (250, 15000))
          ([(60, 700), (130, 400), (300, 320), (600, 290)].filter (fun p => decide (120 ≤ p.1)))
          (some 285)) :=
  ⟨(c8_estimate_cp_wprime_guards (fun _ _ => none) [(60, 500), (300, 300)] none).1 (by decide),
   (c8_estimate_cp_wprime_guards (fun _ _ => some (250, 15000))
      [(60, 500), (130, 400), (140, 380)] (some 285)).2.1 (by decide),
   (c8_estimate_cp_wprime_guards (fun _ _ => none)
      [(130, 400), (300, 320), (600, 300)] (some 285)).2.2.1 rfl,
   (c8_estimate_cp_wprime_guards (fun _ _ => some (250, 15000))
      [(60, 700), (130, 400), (300, 320), (600, 290)] (some 285)).2.2.2.1⟩

/-! ## Zone edges (metrics/zone_edges.py `ZoneEdgesManager`) -/

/-- One row of an enriched activities table as seen by
`apply_zone_edges_with_backpropagation`: the local date, one cell per
power zone edge column, one per HR zone edge column (`none` = NaN), plus
an opaque payload for all other columns. The model assumes the zone
columns already exist (the source's ensure-columns step creates all-NaN
columns when absent). -/
structure ZRow (α : Type) where
  date : ℤ
  pz : List (Option ℚ)
  hz : List (Option ℚ)
  data : α
  deriving DecidableEq

/-- `pandas.Series.idxmin`: index of the first occurrence of the minimal
value (0 on empty input, never consulted there). -/
def idxMin {β : Type} [LinearOrder β] [Zero β] [DecidableEq β] (l : List β) : ℕ :=
  l.indexOf (minList l)

/-- The `pd.isna(...)` guard of the backpropagation loop: fill an edge
cell only when it is empty. -/
def fillIfEmpty (v : Option ℚ) (e : ℚ) : Option ℚ := if v.isNone then some e else v

/-- `ZoneEdgesManager.apply_zone_edges_with_backpropagation`: empty
table returned as is; sort descending by date; if every edge cell of
every row is already set, return the sorted table unchanged; otherwise
write the current edges onto the row closest to the configuration
timestamp `T` and fill the empty edge cells of every older row. -/
def applyZoneEdges {α : Type} (pE hE : List ℚ) (T : ℤ) (rows : List (ZRow α)) :
    List (ZRow α) :=
  if rows.isEmpty then rows
  else
    let df := rows.mergeSort (fun a b => decide (b.date ≤ a.date))
    if df.all (fun r => r.pz.all Option.isSome && r.hz.all Option.isSome) then df
    else
      let anchor := idxMin (df.map (fun r => |r.date - T|))
      df.enum.map (fun p =>
        if p.1 = anchor then { p.2 with pz := pE.map some, hz := hE.map some }
        else if anchor < p.1 then
          { p.2 with pz := List.zipWith fillIfEmpty p.2.pz pE,
                     hz := List.zipWith fillIfEmpty p.2.hz hE }
        else p.2)

/-! ## Theorems for C5 (zone-edge backpropagation) -/

theorem foldl_min_mem_cons {β : Type} [LinearOrder β] :
    ∀ (xs : List β) (a : β), xs.foldl min a ∈ a :: xs := by
  intro xs
  induction xs with
  | nil => intro a; simp
  | cons x xs ih =>
    intro a
    have h := ih (min a x)
    simp only [List.foldl_cons]
    rcases List.mem_cons.mp h with h | h
    · rcases min_choice a x with hm | hm
      · exact List.mem_cons.mpr (Or.inl (h.trans hm))
      · exact List.mem_cons.mpr (Or.inr (List.mem_cons.mpr (Or.inl (h.trans hm))))
    · exact List.mem_cons.mpr (Or.inr (List.mem_cons.mpr (Or.inr h)))

theorem foldl_min_le_all {β : Type} [LinearOrder β] :
    ∀ (xs : List β) (a : β), xs.foldl min a ≤ a ∧ ∀ y ∈ xs, xs.foldl min a ≤ y := by
  intro xs
  induction xs with
  | nil => intro a; exact ⟨le_rfl, by simp⟩
  | cons x xs ih =>
    intro a
    obtain ⟨h1, h2⟩ := ih (min a x)
    refine ⟨le_trans h1 (min_le_left a x), ?_⟩
    intro y hy
    rcases List.mem_cons.mp hy with hy | hy
    · rw [hy]
      exact le_trans h1 (min_le_right a x)
    · exact h2 y hy

theorem minList_mem {β : Type} [LinearOrder β] [Zero β] (l : List β) (h : l ≠ []) :
    minList l ∈ l := by
  rcases l with _ | ⟨x, xs⟩
  · exact absurd rfl h
  · exact foldl_min_mem_cons xs x

theorem minList_le {β : Type} [LinearOrder β] [Zero β] (l : List β) :
    ∀ y ∈ l, minList l ≤ y := by
  rcases l with _ | ⟨x, xs⟩
  · simp
  · intro y hy
    obtain ⟨h1, h2⟩ := foldl_min_le_all xs x
    rcases List.mem_cons.mp hy with hy | hy
    · rw [hy]; exact h1
    · exact h2 y hy

theorem idxMin_eq_of_unique {β : Type} [LinearOrder β] [Zero β] [DecidableEq β]
    (l : List β) (a : ℕ) (ha : a < l.length)
    (hmin : ∀ j (hj : j < l.length), j ≠ a → l[a] < l[j]) :
    idxMin l = a := by
  have hne : l ≠ [] := by
    intro h
    rw [h] at ha
    simp at ha
  have hmem : minList l ∈ l := minList_mem l hne
  have hval : minList l = l[a] := by
    obtain ⟨j, hj, hjv⟩ := List.getElem_of_mem hmem
    by_cases hja : j = a
    · subst hja
      exact hjv.symm
    · have h1 := hmin j hj hja
      rw [hjv] at h1
      have h2 := minList_le l (l[a]) (List.getElem_mem ha)
      exact absurd (lt_of_lt_of_le h1 h2) (lt_irrefl _)
  have hlt : List.indexOf (minList l) l < l.length :=
    List.indexOf_lt_length.mpr hmem
  have hidx : l[List.indexOf (minList l) l] = minList l := by
    have h := List.indexOf_get hlt
    simp only [List.get_eq_getElem] at h
    exact h
  by_cases hia : List.indexOf (minList l) l = a
  · unfold idxMin
    exact hia
  · have h1 := hmin _ hlt hia
    rw [hidx, hval] at h1
    exact absurd h1 (lt_irrefl _)

/-- C5 counterexample: a one-row table whose single activity is the
unique closest to the configuration time but already has every edge cell
filled (with stale values 999 / 998): the early `all filled` return
leaves it unchanged, so the current edges 150 / 140 are NOT written onto
the closest activity, contradicting the claim as stated. -/
theorem c5_counterexample :
    applyZoneEdges [150] [140] 0 [(⟨-86400, [some 999], [some 998], ()⟩ : ZRow Unit)]
      = [⟨-86400, [some 999], [some 998], ()⟩]
  ∧ [some (999 : ℚ)] ≠ ([150] : List ℚ).map some := by
  constructor
  · unfold applyZoneEdges
    rw [if_neg (by simp)]
    simp only [List.mergeSort_singleton]
    rw [if_pos (by decide)]
  · decide

/-- C5 (amended): on a non-empty descending-sorted table that has at
least one empty zone-edge cell, the current power and HR right edges are
written onto exactly the activity whose `|date - T|` is minimal (the
anchor); each edge column of every row strictly older than the anchor is
filled only where that cell is empty (`fillIfEmpty`); every row newer
than the anchor is left entirely unchanged. (When every edge cell of
every row is already set, the table is returned unchanged instead — see
the counterexample.) -/
theorem c5_zone_edges_backpropagation {α : Type} (pE hE : List ℚ) (T : ℤ)
    (rows : List (ZRow α)) (a : ℕ) (ha : a < rows.length)
    (hsorted : rows.Pairwise (fun r s => s.date ≤ r.date))
    (hnotfull : rows.all (fun r => r.pz.all Option.isSome && r.hz.all Option.isSome) = false)
    (hmin : ∀ j (hj : j < rows.length), j ≠ a → |rows[a].date - T| < |rows[j].date - T|) :
    (applyZoneEdges pE hE T rows).length = rows.length
  ∧ (∀ hA : a < (applyZoneEdges pE hE T rows).length,
       (applyZoneEdges pE hE T rows)[a].pz = pE.map some
     ∧ (applyZoneEdges pE hE T rows)[a].hz = hE.map some
     ∧ (applyZoneEdges pE hE T rows)[a].date = rows[a].date
     ∧ (applyZoneEdges pE hE T rows)[a].data = rows[a].data)
  ∧ (∀ i, ∀ hiA : i < (applyZoneEdges pE hE T rows).length, ∀ hi : i < rows.length,
       i < a → (applyZoneEdges pE hE T rows)[i] = rows[i])
  ∧ (∀ i, ∀ hiA : i < (applyZoneEdges pE hE T rows).length, ∀ hi : i < rows.length,
       a < i →
       (applyZoneEdges pE hE T rows)[i].date = rows[i].date
     ∧ (applyZoneEdges pE hE T rows)[i].data = rows[i].data
     ∧ (applyZoneEdges pE hE T rows)[i].pz = List.zipWith fillIfEmpty (rows[i]).pz pE
     ∧ (applyZoneEdges pE hE T rows)[i].hz = List.zipWith fillIfEmpty (rows[i]).hz hE) := by
  have hne : rows ≠ [] := by
    intro h
    rw [h] at ha
    simp at ha
  have hsortb : rows.Pairwise
      (fun r s => (fun x y : ZRow α => decide (y.date ≤ x.date)) r s = true) := by
    refine hsorted.imp ?_
    intro r s hrs
    simpa using hrs
  have hms : rows.mergeSort (fun x y : ZRow α => decide (y.date ≤ x.date)) = rows :=
    List.mergeSort_of_sorted hsortb
  have hanchor : idxMin (rows.map (fun r => |r.date - T|)) = a := by
    refine idxMin_eq_of_unique _ a (by simpa using ha) ?_
    intro j hj hja
    have hj2 : j < rows.length := by simpa using hj
    rw [List.getElem_map, List.getElem_map]
    exact hmin j hj2 hja
  have hres : applyZoneEdges pE hE T rows
      = rows.enum.map (fun p =>
          if p.1 = a then { p.2 with pz := pE.map some, hz := hE.map some }
          else if a < p.1 then
            { p.2 with pz := List.zipWith fillIfEmpty p.2.pz pE,
                       hz := List.zipWith fillIfEmpty p.2.hz hE }
          else p.2) := by
    unfold applyZoneEdges
    rw [if_neg (by simpa using hne)]
    simp only [hms]
    rw [if_neg (by rw [hnotfull]; simp), hanchor]
  have hlen : (applyZoneEdges pE hE T rows).length = rows.length := by
    rw [hres]
    simp
  have hget : ∀ (i : ℕ) (hi : i < rows.length)
      (hiA : i < (applyZoneEdges pE hE T rows).length),
      (applyZoneEdges pE hE T rows)[i]
        = (if i = a then { rows[i] with pz := pE.map some, hz := hE.map some }
           else if a < i then
             { rows[i] with pz := List.zipWith fillIfEmpty (rows[i]).pz pE,
                            hz := List.zipWith fillIfEmpty (rows[i]).hz hE }
           else rows[i]) := by
    intro i hi hiA
    have h2 := List.getElem_of_eq hres hiA
    rw [h2, List.getElem_map, List.getElem_enum]
  refine ⟨hlen, ?_, ?_, ?_⟩
  · intro hA
    rw [hget a ha hA, if_pos rfl]
    exact ⟨rfl, rfl, rfl, rfl⟩
  · intro i hiA hi hia
    rw [hget i hi hiA, if_neg (by omega), if_neg (by omega)]
  · intro i hiA hi hia
    rw [hget i hi hiA, if_neg (by omega), if_pos hia]
    exact ⟨rfl, rfl, rfl, rfl⟩

/-- Witness for C5 (amended) at a concrete input: three activities at
dates -10 d, -5 d and +1 d around `T = 0` (descending), two power edges
and one HR edge, anchor at index 0; the instantiated theorem gives the
length clause. -/
theorem c5_zone_edges_backpropagation_witness :
    (applyZoneEdges [150, 210] [140] 0
        [(⟨86400, [none, none], [none], ()⟩ : ZRow Unit),
         ⟨-432000, [some 120, none], [none], ()⟩,
         ⟨-864000, [none, none], [some 130], ()⟩]).length
      = ([(⟨86400, [none, none], [none], ()⟩ : ZRow Unit),
          ⟨-432000, [some 120, none], [none], ()⟩,
          ⟨-864000, [none, none], [some 130], ()⟩]).length :=
  (c5_zone_edges_backpropagation [150, 210] [140] 0
      [⟨86400, [none, none], [none], ()⟩,
       ⟨-432000, [some 120, none], [none], ()⟩,
       ⟨-864000, [none, none], [some 130], ()⟩] 0
      (by decide) (by decide) (by decide) (by decide)).1

/-! ## Per-activity training load
(services/analysis_service.py `_compute_per_activity_training_load`) -/

/-- One row of the enriched table as consumed by
`_compute_per_activity_training_load`: the activity's local date (POSIX
seconds) and its `training_stress_score` (already `fillna(0)`-ed), plus
an opaque payload for all other columns. -/
structure LoadRow (α : Type) where
  date : ℤ
  tss : ℝ
  data : α

/-- `TrainingLoadWindows.CTL_DAYS` = 42 (chronic time constant). -/
def ctlDays : ℝ := 42

/-- `TrainingLoadWindows.ATL_DAYS` = 7 (acute time constant). -/
def atlDays : ℝ := 7

/-- `(pd.Timestamp(cur) - pd.Timestamp(prev)).days` (floor division of
the elapsed seconds by 86400) followed by `max(days_elapsed, 0)`. -/
def daysElapsed (prev cur : ℤ) : ℤ := max ((cur - prev).fdiv 86400) 0

/-- The loop body for `i > 0`: previous load decayed by `exp(-Δ/tc)`
plus today's TSS weighted by the one-day weight `1 - exp(-1/tc)`. -/
noncomputable def loadUpdate (tc prev tss : ℝ) (days : ℤ) : ℝ :=
  prev * Real.exp (-(days : ℝ) / tc) + tss * (1 - Real.exp (-1 / tc))

/-- An input row together with the four attached training-load columns. -/
structure LoadOutRow (α : Type) where
  date : ℤ
  tss : ℝ
  data : α
  ctl : ℝ
  atl : ℝ
  tsb : ℝ
  acwr : ℝ

/-- The `for i in range(n)` loop for `i ≥ 1`, carrying the previous
row's date and the previous CTL/ATL values. -/
noncomputable def loadAux {α : Type} (prevDate : ℤ) (prevCtl prevAtl : ℝ) :
    List (LoadRow α) → List (LoadRow α × ℝ × ℝ)
  | [] => []
  | r :: rs =>
    let d := daysElapsed prevDate r.date
    let c := loadUpdate ctlDays prevCtl r.tss d
    let a := loadUpdate atlDays prevAtl r.tss d
    (r, c, a) :: loadAux r.date c a rs

/-- The full `ctl_values` / `atl_values` computation over the
ascending-sorted table: `CTL[0] = ATL[0] = TSS[0]`, then the decayed
updates. -/
noncomputable def loadStates {α : Type} : List (LoadRow α) → List (LoadRow α × ℝ × ℝ)
  | [] => []
  | r :: rs => (r, r.tss, r.tss) :: loadAux r.date r.tss r.tss rs

/-- The TSB column (`ctl - atl`) and the ACWR column
(`np.where(ctl > 0, atl / ctl, 0)`), assembled per row. -/
noncomputable def loadFinish {α : Type} (s : LoadRow α × ℝ × ℝ) : LoadOutRow α :=
  ⟨s.1.date, s.1.tss, s.1.data, s.2.1, s.2.2, s.2.1 - s.2.2,
    if 0 < s.2.1 then s.2.2 / s.2.1 else 0⟩

/-- The enriched rows in ascending order: recurrence states plus the
TSB/ACWR columns. -/
noncomputable def trainingLoadAscRows {α : Type} (rows : List (LoadRow α)) :
    List (LoadOutRow α) :=
  (loadStates rows).map loadFinish

/-- `_compute_per_activity_training_load` on a table that has the TSS
and date columns: sort ascending by date, run the time-based recurrence,
attach TSB and ACWR, and re-sort descending (most recent first) for
export. -/
noncomputable def computePerActivityTrainingLoad {α : Type} (rows : List (LoadRow α)) :
    List (LoadOutRow α) :=
  let asc := rows.mergeSort (fun a b => decide (a.date ≤ b.date))
  (trainingLoadAscRows asc).mergeSort (fun a b => decide (b.date ≤ a.date))

/-! ## Theorems for C1 (training-load recurrence) -/

theorem loadAux_length {α : Type} :
    ∀ (rs : List (LoadRow α)) (pd : ℤ) (c a : ℝ),
      (loadAux pd c a rs).length = rs.length := by
  intro rs
  induction rs with
  | nil => intro pd c a; rfl
  | cons r rs ih =>
    intro pd c a
    simp only [loadAux, List.length_cons, ih]

theorem loadStates_length {α : Type} (rows : List (LoadRow α)) :
    (loadStates rows).length = rows.length := by
  rcases rows with _ | ⟨r, rs⟩
  · rfl
  · simp only [loadStates, List.length_cons, loadAux_length]

theorem loadAux_map_fst {α : Type} :
    ∀ (rs : List (LoadRow α)) (pd : ℤ) (c a : ℝ),
      (loadAux pd c a rs).map Prod.fst = rs := by
  intro rs
  induction rs with
  | nil => intro pd c a; rfl
  | cons r rs ih =>
    intro pd c a
    simp only [loadAux, List.map_cons, ih]

theorem loadStates_map_fst {α : Type} (rows : List (LoadRow α)) :
    (loadStates rows).map Prod.fst = rows := by
  rcases rows with _ | ⟨r, rs⟩
  · rfl
  · simp only [loadStates, List.map_cons, loadAux_map_fst]

theorem loadStates_fst {α : Type} (rows : List (LoadRow α)) (i : ℕ)
    (hi : i < rows.length) (hiS : i < (loadStates rows).length) :
    (loadStates rows)[i].1 = rows[i] := by
  have h := loadStates_map_fst rows
  have hlen : i < ((loadStates rows).map Prod.fst).length := by
    rw [List.length_map, loadStates_length]
    exact hi
  have h2 : ((loadStates rows).map Prod.fst)[i] = rows[i] := List.getElem_of_eq h hlen
  rw [List.getElem_map] at h2
  exact h2

theorem loadAux_chain {α : Type} :
    ∀ (rs : List (LoadRow α)) (pd : ℤ) (c a : ℝ) (i : ℕ)
      (hi1 : i + 1 < (loadAux pd c a rs).length)
      (hi0 : i < (loadAux pd c a rs).length),
      (loadAux pd c a rs)[i + 1].2.1
          = loadUpdate ctlDays ((loadAux pd c a rs)[i].2.1)
              ((loadAux pd c a rs)[i + 1].1.tss)
              (daysElapsed ((loadAux pd c a rs)[i].1.date)
                ((loadAux pd c a rs)[i + 1].1.date))
    ∧ (loadAux pd c a rs)[i + 1].2.2
          = loadUpdate atlDays ((loadAux pd c a rs)[i].2.2)
              ((loadAux pd c a rs)[i + 1].1.tss)
              (daysElapsed ((loadAux pd c a rs)[i].1.date)
                ((loadAux pd c a rs)[i + 1].1.date)) := by
  intro rs
  induction rs with
  | nil =>
    intro pd c a i hi1 hi0
    exact absurd hi1 (by simp [loadAux])
  | cons r rs ih =>
    intro pd c a i hi1 hi0
    match i with
    | 0 =>
      rcases rs with _ | ⟨r2, rs2⟩
      · exact absurd hi1 (by simp [loadAux, loadAux_length])
      · exact ⟨rfl, rfl⟩
    | Nat.succ j =>
      have hj1 : j + 1 < (loadAux r.date (loadUpdate ctlDays c r.tss
          (daysElapsed pd r.date)) (loadUpdate atlDays a r.tss (daysElapsed pd r.date))
          rs).length := by
        have := hi1
        simp only [loadAux, List.length_cons] at this
        simpa using this
      have hj0 : j < (loadAux r.date (loadUpdate ctlDays c r.tss
          (daysElapsed pd r.date)) (loadUpdate atlDays a r.tss (daysElapsed pd r.date))
          rs).length := by omega
      have h := ih r.date (loadUpdate ctlDays c r.tss (daysElapsed pd r.date))
        (loadUpdate atlDays a r.tss (daysElapsed pd r.date)) j hj1 hj0
      simpa [loadAux, List.getElem_cons_succ] using h

theorem loadStates_chain {α : Type} (rows : List (LoadRow α)) (i : ℕ)
    (hi1 : i + 1 < (loadStates rows).length)
    (hi0 : i < (loadStates rows).length) :
    (loadStates rows)[i + 1].2.1
        = loadUpdate ctlDays ((loadStates rows)[i].2.1)
            ((loadStates rows)[i + 1].1.tss)
            (daysElapsed ((loadStates rows)[i].1.date) ((loadStates rows)[i + 1].1.date))
  ∧ (loadStates rows)[i + 1].2.2
        = loadUpdate atlDays ((loadStates rows)[i].2.2)
            ((loadStates rows)[i + 1].1.tss)
            (daysElapsed ((loadStates rows)[i].1.date) ((loadStates rows)[i + 1].1.date)) := by
  rcases rows with _ | ⟨r, rs⟩
  · exact absurd hi1 (by simp [loadStates])
  · match i with
    | 0 =>
      rcases rs with _ | ⟨r2, rs2⟩
      · exact absurd hi1 (by simp [loadStates, loadAux])
      · exact ⟨rfl, rfl⟩
    | Nat.succ j =>
      have hj1 : j + 1 < (loadAux r.date r.tss r.tss rs).length := by
        have := hi1
        simp only [loadStates, List.length_cons] at this
        simpa using this
      have hj0 : j < (loadAux r.date r.tss r.tss rs).length := by omega
      have h := loadAux_chain rs r.date r.tss r.tss j hj1 hj0
      simpa [loadStates, List.getElem_cons_succ] using h

/-- C1: on an enriched table sorted ascending by date, the training-load
columns satisfy the time-based recurrence: `CTL[0] = ATL[0] = TSS[0]`;
for `i > 0` with `Δ = daysElapsed` (whole days, clipped to `≥ 0`),
`CTL[i] = CTL[i-1]·exp(-Δ/42) + TSS[i]·(1 - exp(-1/42))` and
`ATL[i] = ATL[i-1]·exp(-Δ/7) + TSS[i]·(1 - exp(-1/7))`;
`TSB[i] = CTL[i] - ATL[i]`; `ACWR[i] = ATL[i]/CTL[i]` when `CTL[i] > 0`
and `0` otherwise; a same-day second activity (`Δ = 0`) adds
`TSS·(1 - exp(-1/τ))` to the undecayed previous value; and the exported
table is the same rows re-sorted descending by date. -/
theorem c1_training_load_recurrence {α : Type} (rows : List (LoadRow α))
    (hsorted : rows.Pairwise (fun r s => r.date ≤ s.date)) :
    (trainingLoadAscRows rows).length = rows.length
  ∧ (∀ h0 : 0 < rows.length, ∀ h0m : 0 < (trainingLoadAscRows rows).length,
       (trainingLoadAscRows rows)[0].ctl = rows[0].tss
     ∧ (trainingLoadAscRows rows)[0].atl = rows[0].tss)
  ∧ (∀ i, ∀ hi1 : i + 1 < rows.length, ∀ hi0 : i < rows.length,
       ∀ him1 : i + 1 < (trainingLoadAscRows rows).length,
       ∀ him0 : i < (trainingLoadAscRows rows).length,
       (trainingLoadAscRows rows)[i + 1].ctl
           = (trainingLoadAscRows rows)[i].ctl
               * Real.exp (-((daysElapsed (rows[i].date) (rows[i + 1].date) : ℤ) : ℝ) / 42)
             + rows[i + 1].tss * (1 - Real.exp (-1 / 42))
     ∧ (trainingLoadAscRows rows)[i + 1].atl
           = (trainingLoadAscRows rows)[i].atl
               * Real.exp (-((daysElapsed (rows[i].date) (rows[i + 1].date) : ℤ) : ℝ) / 7)
             + rows[i + 1].tss * (1 - Real.exp (-1 / 7))
     ∧ (rows[i + 1].date = rows[i].date →
         (trainingLoadAscRows rows)[i + 1].ctl
             = (trainingLoadAscRows rows)[i].ctl
               + rows[i + 1].tss * (1 - Real.exp (-1 / 42))
       ∧ (trainingLoadAscRows rows)[i + 1].atl
             = (trainingLoadAscRows rows)[i].atl
               + rows[i + 1].tss * (1 - Real.exp (-1 / 7))))
  ∧ (∀ i, ∀ him : i < (trainingLoadAscRows rows).length,
       (trainingLoadAscRows rows)[i].tsb
           = (trainingLoadAscRows rows)[i].ctl - (trainingLoadAscRows rows)[i].atl
     ∧ (trainingLoadAscRows rows)[i].acwr
           = (if 0 < (trainingLoadAscRows rows)[i].ctl then
                (trainingLoadAscRows rows)[i].atl / (trainingLoadAscRows rows)[i].ctl
              else 0))
  ∧ computePerActivityTrainingLoad rows
      = (trainingLoadAscRows rows).mergeSort (fun a b => decide (b.date ≤ a.date))
  ∧ (computePerActivityTrainingLoad rows).Pairwise (fun r s => s.date ≤ r.date)
  ∧ (computePerActivityTrainingLoad rows).Perm (trainingLoadAscRows rows) := by
  have hmlen : (trainingLoadAscRows rows).length = rows.length := by
    unfold trainingLoadAscRows
    rw [List.length_map, loadStates_length]
  have hgetc : ∀ (i : ℕ) (hiS : i < (loadStates rows).length)
      (him : i < (trainingLoadAscRows rows).length),
      (trainingLoadAscRows rows)[i] = loadFinish ((loadStates rows)[i]) := by
    intro i hiS him
    show ((loadStates rows).map loadFinish)[i] = loadFinish ((loadStates rows)[i])
    rw [List.getElem_map]
  have hsortb : rows.Pairwise
      (fun r s => (fun x y : LoadRow α => decide (x.date ≤ y.date)) r s = true) := by
    refine hsorted.imp ?_
    intro r s hrs
    simpa using hrs
  have hms : rows.mergeSort (fun x y : LoadRow α => decide (x.date ≤ y.date)) = rows :=
    List.mergeSort_of_sorted hsortb
  have hexport : computePerActivityTrainingLoad rows
      = (trainingLoadAscRows rows).mergeSort (fun a b => decide (b.date ≤ a.date)) := by
    unfold computePerActivityTrainingLoad
    rw [hms]
  refine ⟨hmlen, ?_, ?_, ?_, hexport, ?_, ?_⟩
  · intro h0 h0m
    have hiS : 0 < (loadStates rows).length := by rw [loadStates_length]; exact h0
    rw [hgetc 0 hiS h0m]
    rcases rows with _ | ⟨r, rs⟩
    · simp at h0
    · exact ⟨rfl, rfl⟩
  · intro i hi1 hi0 him1 him0
    have hiS1 : i + 1 < (loadStates rows).length := by rw [loadStates_length]; exact hi1
    have hiS0 : i < (loadStates rows).length := by omega
    obtain ⟨hc, ha2⟩ := loadStates_chain rows i hiS1 hiS0
    have hf1 := loadStates_fst rows (i + 1) hi1 hiS1
    have hf0 := loadStates_fst rows i hi0 hiS0
    rw [hf1, hf0] at hc ha2
    have hcm : (trainingLoadAscRows rows)[i + 1].ctl
        = (trainingLoadAscRows rows)[i].ctl
            * Real.exp (-((daysElapsed (rows[i].date) (rows[i + 1].date) : ℤ) : ℝ) / 42)
          + rows[i + 1].tss * (1 - Real.exp (-1 / 42)) := by
      rw [hgetc (i + 1) hiS1 him1, hgetc i hiS0 him0]
      show ((loadStates rows)[i + 1]).2.1 = _
      rw [hc]
      rfl
    have ham : (trainingLoadAscRows rows)[i + 1].atl
        = (trainingLoadAscRows rows)[i].atl
            * Real.exp (-((daysElapsed (rows[i].date) (rows[i + 1].date) : ℤ) : ℝ) / 7)
          + rows[i + 1].tss * (1 - Real.exp (-1 / 7)) := by
      rw [hgetc (i + 1) hiS1 him1, hgetc i hiS0 him0]
      show ((loadStates rows)[i + 1]).2.2 = _
      rw [ha2]
      rfl
    refine ⟨hcm, ham, ?_⟩
    intro hdate
    have hz : daysElapsed (rows[i].date) (rows[i + 1].date) = 0 := by
      unfold daysElapsed
      rw [hdate]
      simp
    rw [hz] at hcm ham
    simp only [Int.cast_zero, neg_zero, zero_div, Real.exp_zero, mul_one] at hcm ham
    exact ⟨hcm, ham⟩
  · intro i him
    have hiS : i < (loadStates rows).length := by
      rw [loadStates_length]
      rw [hmlen] at him
      exact him
    rw [hgetc i hiS him]
    exact ⟨rfl, rfl⟩
  · rw [hexport]
    have hsortd := @List.sorted_mergeSort (LoadOutRow α)
      (fun a b : LoadOutRow α => decide (b.date ≤ a.date))
      (fun a b c hab hbc => by
        simp only [decide_eq_true_eq] at hab hbc ⊢
        exact le_trans hbc hab)
      (fun a b => by
        simp only [Bool.or_eq_true, decide_eq_true_eq]
        exact le_total b.date a.date)
      (trainingLoadAscRows rows)
    refine hsortd.imp ?_
    intro r s hrs
    simpa using hrs
  · rw [hexport]
    exact List.mergeSort_perm (trainingLoadAscRows rows) _

/-- Witness for C1 at a concrete input: two activities on consecutive
days, sorted ascending. -/
theorem c1_training_load_recurrence_witness :
    (trainingLoadAscRows
        [(⟨0, 100, ()⟩ : LoadRow Unit), ⟨86400, 50, ()⟩]).length
      = ([(⟨0, 100, ()⟩ : LoadRow Unit), ⟨86400, 50, ()⟩]).length :=
  (c1_training_load_recurrence
    [(⟨0, 100, ()⟩ : LoadRow Unit), ⟨86400, 50, ()⟩] (by decide)).1

/-! ## Power metrics (metrics/power.py `PowerCalculator`) -/

/-- `ValidationThresholds.MIN_POWER_FOR_METRICS` (30 samples). -/
def minPowerForMetrics : ℕ := 30

/-- `PowerCalculator._calculate_normalized_power`: 30-sample rolling
mean (`min_periods=1`) over the positive-watt subsequence, fourth power,
time-weighted mean using the deltas of those samples' time stamps
(`stream_df.loc[fourth_power.index]`), fourth root (`** 0.25`). `rows`
are `(time, watts)` pairs; 0 when fewer than
`MIN_POWER_FOR_METRICS = 30` positive samples. -/
noncomputable def normalizedPower (rows : List (ℝ × ℝ)) : ℝ :=
  let valid := rows.filter (fun p => decide (0 < p.2))
  if valid.length < minPowerForMetrics then 0
  else
    let rolled := rollingMean 30 (valid.map Prod.snd)
    let fourth := rolled.map (fun x => x ^ (4 : ℕ))
    let ds := timeDeltas false (valid.map Prod.fst)
    ((List.zipWith (fun v d => v * d) fourth ds).sum / ds.sum) ^ ((1 : ℝ) / 4)

/-- `PowerCalculator._get_empty_metrics` with the `moving_only=False`
prefix `raw_` from `_get_prefix`. -/
noncomputable def powerEmptyMetrics : List (String × ℝ) :=
  [("raw_average_power", 0), ("raw_max_power", 0), ("raw_power_per_kg", 0),
   ("raw_normalized_power", 0), ("raw_intensity_factor", 0),
   ("raw_training_stress_score", 0)]

/-- `PowerCalculator.calculate` as the orchestrator invokes it
(`moving_only=False`, hence every key carries the `raw_` prefix):
`none` models a stream without a `watts` column; otherwise `rows` are
the `(time, watts)` pairs. TSS = NP · IF · duration_s / (FTP · 3600) ·
100, with duration_s the sum of the per-sample time deltas. -/
noncomputable def powerCalculate (ftp weight : ℝ) (rows : Option (List (ℝ × ℝ))) :
    List (String × ℝ) :=
  match rows with
  | none => powerEmptyMetrics
  | some s =>
    if s.isEmpty ∨ maxList (s.map Prod.snd) = 0 then powerEmptyMetrics
    else
      let avgPower := timeWeightedMean false (s.map Prod.snd) (s.map Prod.fst)
      let validPower := (s.map Prod.snd).filter (fun w => decide (0 < w))
      let maxPower := if validPower.isEmpty then 0 else maxList validPower
      let np := normalizedPower s
      let ifTss : List (String × ℝ) :=
        if 0 < np ∧ 0 < ftp then
          let intensityFactor := np / ftp
          let durationSeconds := totalDuration (s.map Prod.fst)
          [("raw_intensity_factor", intensityFactor),
           ("raw_training_stress_score",
             np * intensityFactor * durationSeconds / (ftp * 3600) * 100)]
        else [("raw_intensity_factor", 0), ("raw_training_stress_score", 0)]
      [("raw_average_power", avgPower), ("raw_max_power", maxPower),
       ("raw_power_per_kg", avgPower / weight),
       ("raw_normalized_power", np)] ++ ifTss

/-- A stream sampled at 1 Hz with constant wattage: samples
`(a, c), (a+1, c), …`, `n` of them. -/
def constPowerStream (c : ℝ) : ℝ → ℕ → List (ℝ × ℝ)
  | _, 0 => []
  | a, n + 1 => (a, c) :: constPowerStream c (a + 1) n

/-! ## Lemmas for C3 (a full hour at FTP) -/

theorem constPowerStream_length (c : ℝ) :
    ∀ (n : ℕ) (a : ℝ), (constPowerStream c a n).length = n := by
  intro n
  induction n with
  | zero => intro a; rfl
  | succ n ih =>
    intro a
    simp only [constPowerStream, List.length_cons, ih]

theorem constPowerStream_map_snd (c : ℝ) :
    ∀ (n : ℕ) (a : ℝ), (constPowerStream c a n).map Prod.snd = List.replicate n c := by
  intro n
  induction n with
  | zero => intro a; rfl
  | succ n ih =>
    intro a
    simp only [constPowerStream, List.map_cons, ih, List.replicate_succ]

theorem constPowerStream_filter_pos (c : ℝ) (hc : 0 < c) :
    ∀ (n : ℕ) (a : ℝ),
      (constPowerStream c a n).filter (fun p => decide (0 < p.2)) = constPowerStream c a n := by
  intro n
  induction n with
  | zero => intro a; rfl
  | succ n ih =>
    intro a
    simp only [constPowerStream, List.filter_cons]
    rw [if_pos (by simpa using hc), ih]

theorem constPowerStream_fst_diffs (c : ℝ) :
    ∀ (n : ℕ) (a : ℝ),
      listDiffs ((constPowerStream c a n).map Prod.fst) = List.replicate (n - 1) 1 := by
  intro n
  induction n with
  | zero => intro a; rfl
  | succ n ih =>
    intro a
    match n with
    | 0 => rfl
    | Nat.succ m =>
      have h := ih (a + 1)
      simp only [constPowerStream, List.map_cons] at h ⊢
      rw [show (m + 1 + 1 - 1 : ℕ) = m + 1 by omega, List.replicate_succ]
      simp only [listDiffs]
      rw [show (m + 1 - 1 : ℕ) = m by omega] at h
      rw [show a + 1 - a = (1 : ℝ) by ring, h]

theorem timeDeltas_constPowerStream (c : ℝ) (n : ℕ) (hn : 1 ≤ n) (a : ℝ) :
    timeDeltas false ((constPowerStream c a n).map Prod.fst) = List.replicate n 1 := by
  unfold timeDeltas
  rw [constPowerStream_fst_diffs]
  match n with
  | 1 =>
    simp [constPowerStream]
  | Nat.succ (Nat.succ m) =>
    rw [show (m + 1 + 1 - 1 : ℕ) = m + 1 by omega, List.replicate_succ]
    simp only [Bool.false_eq_true, if_false]
    rw [show ((1 : ℝ) :: (1 : ℝ) :: List.replicate m 1)
        = List.replicate (m + 2) (1 : ℝ) by simp [List.replicate_succ]]
    rw [List.map_replicate]
    rw [show max (1 : ℝ) 1 = 1 from max_self 1]

theorem rollingMean_replicate (w n : ℕ) (hw : 1 ≤ w) (c : ℝ) :
    rollingMean w (List.replicate n c) = List.replicate n c := by
  unfold rollingMean
  rw [List.length_replicate]
  rw [List.eq_replicate_iff]
  constructor
  · simp
  · intro b hb
    obtain ⟨i, hi, hib⟩ := List.mem_map.mp hb
    have hin : i < n := List.mem_range.mp hi
    rw [← hib]
    have htake : (List.replicate n c).take (i + 1) = List.replicate (i + 1) c := by
      rw [List.take_replicate]
      congr 1
      omega
    have hdrop : (List.replicate (i + 1) c).drop (i + 1 - w)
        = List.replicate ((i + 1) - (i + 1 - w)) c := by
      rw [List.drop_replicate]
    simp only [htake, hdrop, List.sum_replicate, List.length_replicate, nsmul_eq_mul]
    have hk0 : ((((i + 1) - (i + 1 - w)) : ℕ) : ℝ) ≠ 0 := by
      simp only [ne_eq, Nat.cast_eq_zero]
      omega
    exact mul_div_cancel_left₀ c hk0

theorem foldl_max_replicate (c : ℝ) : ∀ (m : ℕ), (List.replicate m c).foldl max c = c := by
  intro m
  induction m with
  | zero => rfl
  | succ m ih =>
    rw [List.replicate_succ, List.foldl_cons, max_self]
    exact ih

theorem maxList_replicate (n : ℕ) (hn : 1 ≤ n) (c : ℝ) :
    maxList (List.replicate n c) = c := by
  match n with
  | Nat.succ m =>
    rw [List.replicate_succ]
    show (List.replicate m c).foldl max c = c
    exact foldl_max_replicate c m

theorem rpow_fourth_root (x : ℝ) (hx : 0 < x) : ((x ^ (4 : ℕ)) : ℝ) ^ ((1 : ℝ) / 4) = x := by
  rw [← Real.rpow_natCast x 4, ← Real.rpow_mul (le_of_lt hx)]
  norm_num

theorem zipWith_mul_replicate (n : ℕ) (x y : ℝ) :
    List.zipWith (fun v d => v * d) (List.replicate n x) (List.replicate n y)
      = List.replicate n (x * y) := by
  induction n with
  | zero => rfl
  | succ n ih =>
    simp only [List.replicate_succ, List.zipWith_cons_cons, ih]

theorem normalizedPower_const (c : ℝ) (hc : 0 < c) :
    normalizedPower (constPowerStream c 0 3600) = c := by
  simp only [normalizedPower]
  rw [constPowerStream_filter_pos c hc 3600 0]
  rw [if_neg (by rw [constPowerStream_length]; norm_num [minPowerForMetrics])]
  rw [constPowerStream_map_snd, rollingMean_replicate 30 3600 (by norm_num) c,
    timeDeltas_constPowerStream c 3600 (by norm_num) 0]
  rw [List.map_replicate]
  rw [zipWith_mul_replicate, List.sum_replicate, List.sum_replicate]
  simp only [nsmul_eq_mul, mul_one]
  rw [show ((3600 : ℕ) : ℝ) * c ^ (4 : ℕ) / ((3600 : ℕ) : ℝ) = c ^ (4 : ℕ) from
    mul_div_cancel_left₀ _ (by norm_num)]
  exact rpow_fourth_root c hc

theorem totalDuration_constPowerStream (c : ℝ) :
    totalDuration ((constPowerStream c 0 3600).map Prod.fst) = 3600 := by
  unfold totalDuration
  rw [if_neg (by simp [constPowerStream_length, List.isEmpty_iff, List.map_eq_nil_iff,
    ← List.length_eq_zero])]
  rw [timeDeltas_constPowerStream c 3600 (by norm_num) 0, List.sum_replicate]
  norm_num

/-! ## Theorems for C3 (unit-at-FTP TSS and IF) -/

/-- C3: for a stream sampled at 1 Hz whose watts are identically FTP for
3600 s, with FTP > 0, the power calculator yields
`training_stress_score` within ±5 of 100 (it is exactly 100 in exact
arithmetic) and `intensity_factor` within ±0.05 of 1 (exactly 1), where
TSS = NP · IF · duration_s / (FTP · 3600) · 100 and duration_s is the
sum of the per-sample time deltas. -/
theorem c3_unit_at_ftp (ftp weight : ℝ) (hftp : 0 < ftp) :
    ∃ t i,
      ("raw_training_stress_score", t)
          ∈ powerCalculate ftp weight (some (constPowerStream ftp 0 3600))
    ∧ |t - 100| ≤ 5
    ∧ ("raw_intensity_factor", i)
          ∈ powerCalculate ftp weight (some (constPowerStream ftp 0 3600))
    ∧ |i - 1| ≤ 5 / 100 := by
  have hnp := normalizedPower_const ftp hftp
  have hdur := totalDuration_constPowerStream ftp
  have hmax : maxList ((constPowerStream ftp 0 3600).map Prod.snd) = ftp := by
    rw [constPowerStream_map_snd]
    exact maxList_replicate 3600 (by norm_num) ftp
  have hcond : ¬ ((constPowerStream ftp 0 3600).isEmpty
      ∨ maxList ((constPowerStream ftp 0 3600).map Prod.snd) = 0) := by
    rintro (h | h)
    · rw [List.isEmpty_iff, ← List.length_eq_zero, constPowerStream_length] at h
      norm_num at h
    · rw [hmax] at h
      exact absurd h (ne_of_gt hftp)
  have hcalc : powerCalculate ftp weight (some (constPowerStream ftp 0 3600))
      = [("raw_average_power", timeWeightedMean false
            ((constPowerStream ftp 0 3600).map Prod.snd)
            ((constPowerStream ftp 0 3600).map Prod.fst)),
         ("raw_max_power",
           if (((constPowerStream ftp 0 3600).map Prod.snd).filter
               (fun w => decide (0 < w))).isEmpty then 0
           else maxList (((constPowerStream ftp 0 3600).map Prod.snd).filter
               (fun w => decide (0 < w)))),
         ("raw_power_per_kg", timeWeightedMean false
            ((constPowerStream ftp 0 3600).map Prod.snd)
            ((constPowerStream ftp 0 3600).map Prod.fst) / weight),
         ("raw_normalized_power", ftp),
         ("raw_intensity_factor", ftp / ftp),
         ("raw_training_stress_score",
           ftp * (ftp / ftp) * totalDuration ((constPowerStream ftp 0 3600).map Prod.fst)
             / (ftp * 3600) * 100)] := by
    simp only [powerCalculate]
    rw [if_neg hcond, hnp, if_pos (And.intro hftp hftp)]
    rfl
  have hif : ftp / ftp = 1 := div_self (ne_of_gt hftp)
  have htss : ftp * (ftp / ftp) * totalDuration ((constPowerStream ftp 0 3600).map Prod.fst)
      / (ftp * 3600) * 100 = 100 := by
    rw [hdur, hif, mul_one]
    rw [show ftp * 3600 / (ftp * 3600) = 1 from div_self (by positivity)]
    norm_num
  refine ⟨ftp * (ftp / ftp) * totalDuration ((constPowerStream ftp 0 3600).map Prod.fst)
      / (ftp * 3600) * 100, ftp / ftp, ?_, ?_, ?_, ?_⟩
  · rw [hcalc]
    simp
  · rw [htss]
    norm_num
  · rw [hcalc]
    simp
  · rw [hif]
    norm_num

/-- Witness for C3 at a concrete input: FTP = 285 W (the default
settings value), rider weight 77 kg. -/
theorem c3_unit_at_ftp_witness :
    ∃ t i,
      ("raw_training_stress_score", t)
          ∈ powerCalculate 285 77 (some (constPowerStream 285 0 3600))
    ∧ |t - 100| ≤ 5
    ∧ ("raw_intensity_factor", i)
          ∈ powerCalculate 285 77 (some (constPowerStream 285 0 3600))
    ∧ |i - 1| ≤ 5 / 100 :=
  c3_unit_at_ftp 285 77 (by norm_num)

/-! ## Theorem for C6 (metric keys carry the raw_ prefix) -/

/-- C6 (code evaluation): for every invocation of the power calculator
as wired by `MetricsCalculator.compute_all_metrics` (which always passes
the default `moving_only=False`, for the moving view too), the emitted
metric keys are exactly the `raw_`-prefixed sextuple — never the
unprefixed names the claim asserts. `compute_all_metrics` merges this
dict unchanged into the map the Analyzer returns, so both
`raw_metrics` and `moving_metrics` carry `raw_`-prefixed power keys. -/
theorem c6_power_keys_have_raw_prefixes (ftp weight : ℝ) (rows : Option (List (ℝ × ℝ))) :
    (powerCalculate ftp weight rows).map Prod.fst
      = ["raw_average_power", "raw_max_power", "raw_power_per_kg",
         "raw_normalized_power", "raw_intensity_factor", "raw_training_stress_score"] := by
  rcases rows with _ | s
  · rfl
  · simp only [powerCalculate]
    by_cases h1 : s.isEmpty ∨ maxList (s.map Prod.snd) = 0
    · rw [if_pos h1]
      rfl
    · rw [if_neg h1]
      by_cases h2 : 0 < normalizedPower s ∧ 0 < ftp
      · rw [if_pos h2]
        rfl
      · rw [if_neg h2]
        rfl

/-- C6 at the concrete failing input (a stream with no watts column,
e.g. the empty stream of an activity with no power data): the key
`raw_average_power` is present in the calculator output. -/
theorem c6_power_keys_have_raw_prefixes_witness :
    (powerCalculate 285 77 none).map Prod.fst
      = ["raw_average_power", "raw_max_power", "raw_power_per_kg",
         "raw_normalized_power", "raw_intensity_factor", "raw_training_stress_score"] :=
  c6_power_keys_have_raw_prefixes 285 77 none

/-! ## Per-activity CP model
(services/analysis_service.py `_compute_per_activity_cp_model`) -/

/-- One row of the enriched table as consumed by
`_compute_per_activity_cp_model`: local date (POSIX seconds) and one
cell per power-curve column (`none` = NaN; the columns correspond, via
`interval_name_from_seconds`, to the configured durations), plus an
opaque payload. -/
structure CpRow (α : Type) where
  date : ℤ
  curve : List (Option ℚ)
  data : α

/-- An input row plus the four attached CP-model columns. -/
structure CpOutRow (α : Type) where
  date : ℤ
  curve : List (Option ℚ)
  data : α
  cp : Option ℚ
  wPrime : Option ℚ
  cpRSquared : Option ℚ
  aei : Option ℚ

/-- The per-row all-NaN default (`np.full(n, np.nan)` rows that the
loop's `continue` branches leave untouched). -/
def cpNoneRow {α : Type} (r : CpRow α) : CpOutRow α :=
  ⟨r.date, r.curve, r.data, none, none, none, none⟩

/-- The trailing window of activity `r`:
`(df[date_col] >= current - Timedelta(days=cp_window_days)) &
(df[date_col] <= current)` over the whole ascending table. -/
def cpWindowOf {α : Type} (cpWindowDays : ℕ) (asc : List (CpRow α)) (r : CpRow α) :
    List (CpRow α) :=
  asc.filter (fun s =>
    decide (r.date - (cpWindowDays : ℤ) * 86400 ≤ s.date) && decide (s.date ≤ r.date))

/-- The `(duration, max power over the window)` MMP points: per
power-curve column, the pandas `max` of the column over the window, kept
when non-NaN (some cell present) and `> 0`. -/
def windowMmp {α : Type} (durations : List ℕ) (window : List (CpRow α)) : List (ℕ × ℚ) :=
  durations.enum.filterMap (fun p =>
    let vals := window.filterMap (fun r => r.curve.getD p.1 none)
    if vals.isEmpty then none
    else
      let m := maxList vals
      if 0 < m then some (p.2, m) else none)

/-- The loop body of `_compute_per_activity_cp_model` for one activity:
at least 2 window activities and 3 MMP points are required, else the
row keeps its NaN columns; otherwise the CP fit over the window MMP
data (with the FTP hint) and AEI = W' / rider weight (when W' is
non-NaN and the weight is positive). -/
def cpEnrichRow {α : Type} (solver : List (ℚ × ℚ) → ℚ × ℚ → Option (ℚ × ℚ))
    (durations : List ℕ) (cpWindowDays : ℕ) (ftp weight : ℚ)
    (asc : List (CpRow α)) (r : CpRow α) : CpOutRow α :=
  let window := cpWindowOf cpWindowDays asc r
  if window.length < 2 then cpNoneRow r
  else
    let mmp := windowMmp durations window
    if mmp.length < 3 then cpNoneRow r
    else
      let fit := estimateCpWprime solver (mmp.map (fun p => ((p.1 : ℚ), p.2))) (some ftp)
      let aei :=
        match fit.wPrime with
        | some w => if 0 < weight then some (w / weight) else none
        | none => none
      ⟨r.date, r.curve, r.data, fit.cp, fit.wPrime, fit.rSquared, aei⟩

/-- The `getattr` default of analysis_service.py line 488,
`TrainingLoadWindows.CP_WINDOW_DAYS`: the `TrainingLoadWindows` class in
constants.py defines only `ATL_DAYS`, `CTL_DAYS`,
`FTP_ROLLING_WINDOW_DAYS` and `CTL_DAYS_CONSERVATIVE`, so the attribute
lookup fails (`none`). Python evaluates `getattr` arguments eagerly,
hence evaluating this default raises `AttributeError` before `getattr`
ever consults the settings — whose `cp_window_days = 90` field does
exist. -/
def trainingLoadWindowsCpWindowDays : Option ℕ := none

/-- `_compute_per_activity_cp_model`: with no power-curve columns the
four columns are attached as all-NaN and the table returned (the early
return at lines 462-470 fires before line 488; the missing-date-column
return at 473-480 is structurally excluded here since `CpRow` always
carries a date). Otherwise the table is sorted ascending (484-485) and
then line 488 evaluates the `getattr` default
`TrainingLoadWindows.CP_WINDOW_DAYS`, raising `AttributeError`; the
`some` branch records what the loop below would compute — enrich every
activity from its trailing window, re-sort descending — but is
unreachable. -/
def computePerActivityCpModel {α : Type} (solver : List (ℚ × ℚ) → ℚ × ℚ → Option (ℚ × ℚ))
    (durations : List ℕ) (settingsCpWindowDays : ℕ) (ftp weight : ℚ)
    (rows : List (CpRow α)) : Except String (List (CpOutRow α)) :=
  if durations.isEmpty then Except.ok (rows.map cpNoneRow)
  else
    match trainingLoadWindowsCpWindowDays with
    | none =>
      Except.error
        ("AttributeError: type object TrainingLoadWindows has no attribute CP_WINDOW_DAYS")
    | some _ =>
      let asc := rows.mergeSort (fun a b => decide (a.date ≤ b.date))
      Except.ok
        ((asc.map (cpEnrichRow solver durations settingsCpWindowDays ftp weight asc)).mergeSort
          (fun a b => decide (b.date ≤ a.date)))

/-! ## Theorems for C2 (CP-model columns over the trailing window) -/

/-- C2: refuted by the code as written. On every enriched table with at
least one power-curve column (so the early returns of
analysis_service.py lines 462-480 are not taken),
`_compute_per_activity_cp_model` — invoked from `_prepare_df_for_export`
by `save_results` — raises `AttributeError` at line 488: the `getattr`
default `TrainingLoadWindows.CP_WINDOW_DAYS` is evaluated eagerly and
that attribute does not exist in constants.py, so no CP-model columns
are attached and nothing is persisted (`save_results` re-raises the
exception as `ProcessingError`). Only with no power-curve columns are
the four all-NaN columns attached and the table returned, line 488
never being reached. The intended window `Settings.cp_window_days = 90`
exists, so the claim states the intent and the undefined constant is
the slip. -/
theorem c2_cp_model_raises {α : Type} (solver : List (ℚ × ℚ) → ℚ × ℚ → Option (ℚ × ℚ))
    (durations : List ℕ) (settingsCpWindowDays : ℕ) (ftp weight : ℚ)
    (rows : List (CpRow α)) :
    (durations ≠ [] →
      computePerActivityCpModel solver durations settingsCpWindowDays ftp weight rows
        = Except.error
            ("AttributeError: type object TrainingLoadWindows has no attribute CP_WINDOW_DAYS"))
  ∧ (durations = [] →
      computePerActivityCpModel solver durations settingsCpWindowDays ftp weight rows
        = Except.ok (rows.map cpNoneRow)) := by
  constructor
  · intro hdur
    unfold computePerActivityCpModel
    rw [if_neg (by simpa using hdur)]
    rfl
  · intro hdur
    subst hdur
    rfl

/-- Witness for C2 at a concrete failing input: one configured
power-curve column (5 min = 300 s), a 90-day settings window and two
dated activities — the computation errors out instead of attaching the
CP-model columns. -/
theorem c2_cp_model_raises_witness :
    computePerActivityCpModel (fun _ _ => some (250, 15000)) [300] 90 285 77
        [(⟨0, [some 320], ()⟩ : CpRow Unit), ⟨86400, [some 300], ()⟩]
      = Except.error
          ("AttributeError: type object TrainingLoadWindows has no attribute CP_WINDOW_DAYS") :=
  (c2_cp_model_raises (fun _ _ => some (250, 15000)) [300] 90 285 77
    [(⟨0, [some 320], ()⟩ : CpRow Unit), ⟨86400, [some 300], ()⟩]).1 (by decide)

end StravaAnalyzer
